import Mathlib

/-!
Verification of the Seismic–Fireblocks shielded-calldata codec.

The definitions below are shallow embeddings of the TypeScript sources:
  * `Viem.*`            — the viem hex/RLP codecs used by `constructAAD`
  * `TransactionDecryption.*` — src/poc/src/seismic/transaction-decryption.ts
  * `Calldata.*`        — src/poc/src/seismic/calldata.ts
  * `Transaction.*`     — src/poc/src/seismic/transaction.ts
  * `KeyDerivation.*`   — src/poc/src/crypto/key-derivation.ts
  * `Encryption.*`      — src/poc/src/crypto/encryption.ts
  * `Signer.*`          — src/poc/src/fireblocks/signer.ts
Byte sequences are `List Nat` with every element `< 256`; hex text is
`List Char` (JS strings restricted to the ASCII range used by the code).
-/

set_option autoImplicit false
set_option linter.unusedVariables false
set_option maxRecDepth 1000000

namespace FbDemo

/-! ### Hex digits -/

/-- Value of a hex digit character by its char code, accepting both cases
(as JS `parseInt` and viem's `charCodeToBase16` do). `none` for a non-hex
character. -/
def hexDigitVal (c : Char) : Option Nat :=
  if 48 ≤ c.toNat ∧ c.toNat ≤ 57 then some (c.toNat - 48)
  else if 97 ≤ c.toNat ∧ c.toNat ≤ 102 then some (c.toNat - 97 + 10)
  else if 65 ≤ c.toNat ∧ c.toNat ≤ 70 then some (c.toNat - 65 + 10)
  else none

theorem hexDigitVal_lt {c : Char} {v : Nat} (h : hexDigitVal c = some v) : v < 16 := by
  unfold hexDigitVal at h
  split at h
  · injection h with h; omega
  · split at h
    · injection h with h; omega
    · split at h
      · injection h with h; omega
      · exact absurd h (by simp)

def isHexDigit (c : Char) : Bool := (hexDigitVal c).isSome

/-- Lower-case hex digit for a value `< 16` (JS `Number.prototype.toString(16)`
emits lower case). -/
def hexChar (d : Nat) : Char :=
  if d < 10 then Char.ofNat ('0'.toNat + d) else Char.ofNat ('a'.toNat + (d - 10))

/-- `true` iff the string starts with the literal prefix `0x`. -/
def startsWith0x : List Char → Bool
  | '0' :: 'x' :: _ => true
  | _ => false

/-- Digit accumulator for `natToHexStr`; the first argument is fuel
(structural recursion keeps the definition kernel-reducible), always called
with `fuel ≥ n` so the fuel never runs out. -/
def natToHexAux : Nat → Nat → List Char → List Char
  | 0, _, acc => acc
  | _ + 1, 0, acc => acc
  | fuel + 1, n + 1, acc =>
      natToHexAux fuel ((n + 1) / 16) (hexChar ((n + 1) % 16) :: acc)

/-- JS `n.toString(16)` for an unsigned integer: minimal lower-case hex
digits, `0 ↦ "0"`. -/
def natToHexStr (n : Nat) : List Char :=
  if n = 0 then ['0'] else natToHexAux n n []

/-- Byte accumulator for `beBytes`; the first argument is fuel, always
called with `fuel ≥ n`. -/
def beBytesAux : Nat → Nat → List Nat
  | 0, _ => []
  | _ + 1, 0 => []
  | fuel + 1, n + 1 => beBytesAux fuel ((n + 1) / 256) ++ [(n + 1) % 256]

/-- Minimal big-endian byte representation of `n` (`0 ↦ []`). -/
def beBytes (n : Nat) : List Nat := beBytesAux n n

/-- Big-endian bytes of `n` left-padded with zeros to width `w`. -/
def beBytesPad (w n : Nat) : List Nat :=
  List.replicate (w - (beBytes n).length) 0 ++ beBytes n

/-- Big-endian value of a byte string. -/
def beNat (l : List Nat) : Nat := l.foldl (fun acc b => acc * 256 + b) 0

namespace Viem

/-- viem `toHex` on an unsigned integer: `0x` + minimal lower-case hex
(`toHex 0 = "0x0"`). -/
def toHex (n : Nat) : List Char := '0' :: 'x' :: natToHexStr n

/-- Hex-digit pairs to bytes, each digit already validated. -/
def pairsToBytes : List Char → List Nat
  | c1 :: c2 :: rest =>
      (16 * (hexDigitVal c1).getD 0 + (hexDigitVal c2).getD 0) :: pairsToBytes rest
  | _ => []

/-- viem `hexToBytes`: drop the `0x` prefix, left-pad an odd-length digit
string with `'0'`, then convert pairs; a non-hex character makes viem
throw, modelled as `none`. -/
def hexToBytes (hex : List Char) : Option (List Nat) :=
  let s := hex.drop 2
  let s := if s.length % 2 = 1 then '0' :: s else s
  if s.all isHexDigit then some (pairsToBytes s) else none

/-- RLP length prefix for a byte string of length `len` (single byte
`0x80+len` when `len ≤ 55`, else length-of-length form). -/
def rlpStrPrefix (len : Nat) : List Nat :=
  if len ≤ 55 then [0x80 + len] else (0xb7 + (beBytes len).length) :: beBytes len

/-- RLP encoding of one byte string. -/
def rlpEncodeBytes (b : List Nat) : List Nat :=
  match b with
  | [x] => if x < 0x80 then [x] else [0x81, x]
  | _ => rlpStrPrefix b.length ++ b

/-- RLP header for a list whose encoded payload has length `len`. -/
def rlpListHeader (len : Nat) : List Nat :=
  if len ≤ 55 then [0xc0 + len] else (0xf7 + (beBytes len).length) :: beBytes len

/-- RLP encoding of a flat list of byte strings. -/
def rlpEncodeList (items : List (List Nat)) : List Nat :=
  let payload := (items.map rlpEncodeBytes).flatten
  rlpListHeader payload.length ++ payload

/-- Per-item `hexToBytes` over a field array, failing when any item is
not valid hex (viem throws on the first invalid item). -/
def hexListToBytes : List (List Char) → Option (List (List Nat))
  | [] => some []
  | f :: rest =>
      match hexToBytes f, hexListToBytes rest with
      | some b, some bs => some (b :: bs)
      | _, _ => none

/-- viem `toRlp(fields, "bytes")` on a flat array of hex strings. -/
def toRlp (fields : List (List Char)) : Option (List Nat) :=
  (hexListToBytes fields).map rlpEncodeList

end Viem

namespace TransactionDecryption

/-- A numeric transaction field as delivered by the RPC layer: either a JS
number/bigint or a `0x`-prefixed hex string (`constructAAD` handles both). -/
inductive NumLike where
  | num (n : Nat)
  | hexStr (s : List Char)
deriving DecidableEq

/-- JS `parseInt(s, 16)` on the digit part of a hex string: the maximal
leading run of hex digits (the inputs the RPC delivers are fully valid). -/
def parseHexNat (s : List Char) : Nat :=
  (s.takeWhile isHexDigit).foldl (fun acc c => 16 * acc + (hexDigitVal c).getD 0) 0

/-- `normalizeNumeric` from transaction-decryption.ts: `0x`-prefixed strings
are parsed base-16, numbers pass through. -/
def normalizeNumeric : NumLike → Nat
  | .num n => n
  | .hexStr s => if startsWith0x s then parseHexNat (s.drop 2) else parseHexNat s

/-- The `expiresAtBlock` normalization in `constructAAD`: a `0x` string goes
through `BigInt(hex)`, a number through `BigInt("0x" + n.toString(16))`;
both yield the numeric value. -/
def expiresAtBlockNat : NumLike → Nat
  | .num n => n
  | .hexStr s => if startsWith0x s then parseHexNat (s.drop 2) else parseHexNat s

/-- Transaction record consumed by `constructAAD` (the `SeismicTransaction`
shape: 11 authenticated metadata fields plus the non-AAD fields `input` and
`blockNumber`). -/
structure Tx where
  from_ : List Char
  chainId : Nat
  nonce : NumLike
  to_ : Option (List Char)
  value : Nat
  encryptionPubkey : Option (List Char)
  encryptionNonce : Option (List Char)
  messageVersion : List Char
  recentBlockHash : List Char
  expiresAtBlock : NumLike
  signedRead : Bool
  input : List Char
  blockNumber : Nat
deriving DecidableEq

/-- `ensureHexPrefix` from transaction-decryption.ts: falsy (absent or
empty) becomes `"0x"`, otherwise a `0x` prefix is added when missing. -/
def ensureHexPrefixed (v : Option (List Char)) : List Char :=
  match v with
  | none => ['0', 'x']
  | some s =>
      if s = [] then ['0', 'x']
      else if startsWith0x s then s else '0' :: 'x' :: s

/-- The ordered 11-entry hex-string field array built by `constructAAD`:
`[sender, chainId, nonce, to, value, encryptionPubkey, encryptionNonce,
messageVersion, recentBlockHash, expiresAtBlock, signedRead]`. -/
def aadFieldsHex (tx : Tx) : List (List Char) :=
  let nonceValue := normalizeNumeric tx.nonce
  let encryptionPubkey := ensureHexPrefixed tx.encryptionPubkey
  let encryptionNonce := ensureHexPrefixed tx.encryptionNonce
  [ tx.from_,
    Viem.toHex tx.chainId,
    if nonceValue = 0 then ['0', 'x'] else Viem.toHex nonceValue,
    tx.to_.getD ['0', 'x'],
    if tx.value = 0 then ['0', 'x'] else Viem.toHex tx.value,
    encryptionPubkey,
    if encryptionNonce = ['0', 'x', '0', '0'] ∨ encryptionNonce = ['0', 'x', '0']
      then ['0', 'x'] else encryptionNonce,
    if tx.messageVersion = ['0', 'x', '0'] ∨ tx.messageVersion = ['0', 'x', '0', '0']
        ∨ tx.messageVersion = ['0', 'x']
      then ['0', 'x'] else tx.messageVersion,
    tx.recentBlockHash,
    Viem.toHex (expiresAtBlockNat tx.expiresAtBlock),
    if tx.signedRead then ['0', 'x', '0', '1'] else ['0', 'x'] ]

/-- The 11 field values as byte strings (the per-item `hexToBytes` step of
`toRlp`); `none` when some field is not valid hex. -/
def aadFieldBytes (tx : Tx) : Option (List (List Nat)) :=
  Viem.hexListToBytes (aadFieldsHex tx)

/-- `constructAAD` from transaction-decryption.ts: the RLP encoding of the
11-field array (`toRlp(fields, "bytes")`). -/
def constructAAD (tx : Tx) : Option (List Nat) :=
  Viem.toRlp (aadFieldsHex tx)

/-- RLP encoding of the `i`-th AAD field (default byte string for an
invalid field, which the theorems exclude by hypothesis). -/
def aadItemEnc (tx : Tx) (i : Nat) : List Nat :=
  Viem.rlpEncodeBytes ((Viem.hexToBytes ((aadFieldsHex tx).getD i [])).getD [])

/-- Concatenated encodings of the AAD items before the nonce item. -/
def aadPre (tx : Tx) : List Nat := aadItemEnc tx 0 ++ aadItemEnc tx 1

/-- Concatenated encodings of the AAD items after the nonce item. -/
def aadSuf (tx : Tx) : List Nat :=
  aadItemEnc tx 3 ++ aadItemEnc tx 4 ++ aadItemEnc tx 5 ++ aadItemEnc tx 6 ++
    aadItemEnc tx 7 ++ aadItemEnc tx 8 ++ aadItemEnc tx 9 ++ aadItemEnc tx 10

/-- The full RLP payload of the AAD list. -/
def aadPayload (tx : Tx) : List Nat := aadPre tx ++ aadItemEnc tx 2 ++ aadSuf tx

/-- Byte offset where the nonce's RLP item begins inside the encoded AAD. -/
def nonceRegionStart (tx : Tx) : Nat :=
  (Viem.rlpListHeader (aadPayload tx).length).length + (aadPre tx).length

end TransactionDecryption

namespace TransactionDecryption

/-- A concrete shielded transaction used to instantiate the AAD theorems. -/
def txA7 : Tx where
  from_ := "0xaaaaaaaaaaaaaaaaaaaaaaaaaaaaaaaaaaaaaaaa".data
  chainId := 5124
  nonce := NumLike.num 0
  to_ := some "0x1111111111111111111111111111111111111111".data
  value := 0
  encryptionPubkey :=
    some "0x028e76821eb4d77fd30223ca971c49738eb5b5b71eabe93f96b348fdce788ae5a0".data
  encryptionNonce := some "0x0102030405060708090a0b0c".data
  messageVersion := "0x0".data
  recentBlockHash :=
    "0x2222222222222222222222222222222222222222222222222222222222222222".data
  expiresAtBlock := NumLike.num 100
  signedRead := false
  input := "0xdeadbeef".data
  blockNumber := 7

/-- `txA7` with only the `nonce` changed, to a value whose minimal encoding
is wider (256 needs two bytes). -/
def txB7 : Tx := { txA7 with nonce := NumLike.num 256 }

/-- `txA7` with only the non-metadata fields (`input`, `blockNumber`)
changed. -/
def txC6b : Tx := { txA7 with input := "0xffff".data, blockNumber := 99 }

theorem aadFieldsHex_getD_zero (tx : Tx) : (aadFieldsHex tx).getD 0 [] = tx.from_ := rfl

theorem aadFieldsHex_getD_one (tx : Tx) :
    (aadFieldsHex tx).getD 1 [] = Viem.toHex tx.chainId := rfl

theorem aadFieldsHex_getD_two (tx : Tx) :
    (aadFieldsHex tx).getD 2 [] =
      if normalizeNumeric tx.nonce = 0 then ['0', 'x']
      else Viem.toHex (normalizeNumeric tx.nonce) := rfl

theorem aadFieldsHex_getD_three (tx : Tx) :
    (aadFieldsHex tx).getD 3 [] = tx.to_.getD ['0', 'x'] := rfl

theorem aadFieldsHex_getD_four (tx : Tx) :
    (aadFieldsHex tx).getD 4 [] =
      if tx.value = 0 then ['0', 'x'] else Viem.toHex tx.value := rfl

theorem aadFieldsHex_getD_five (tx : Tx) :
    (aadFieldsHex tx).getD 5 [] = ensureHexPrefixed tx.encryptionPubkey := rfl

theorem aadFieldsHex_getD_six (tx : Tx) :
    (aadFieldsHex tx).getD 6 [] =
      if ensureHexPrefixed tx.encryptionNonce = ['0', 'x', '0', '0'] ∨
          ensureHexPrefixed tx.encryptionNonce = ['0', 'x', '0']
        then ['0', 'x'] else ensureHexPrefixed tx.encryptionNonce := rfl

theorem aadFieldsHex_getD_seven (tx : Tx) :
    (aadFieldsHex tx).getD 7 [] =
      if tx.messageVersion = ['0', 'x', '0'] ∨ tx.messageVersion = ['0', 'x', '0', '0']
          ∨ tx.messageVersion = ['0', 'x']
        then ['0', 'x'] else tx.messageVersion := rfl

theorem aadFieldsHex_getD_eight (tx : Tx) :
    (aadFieldsHex tx).getD 8 [] = tx.recentBlockHash := rfl

theorem aadFieldsHex_getD_nine (tx : Tx) :
    (aadFieldsHex tx).getD 9 [] = Viem.toHex (expiresAtBlockNat tx.expiresAtBlock) := rfl

theorem aadFieldsHex_getD_ten (tx : Tx) :
    (aadFieldsHex tx).getD 10 [] =
      if tx.signedRead then ['0', 'x', '0', '1'] else ['0', 'x'] := rfl

theorem pairsToBytes_length : ∀ s : List Char, (Viem.pairsToBytes s).length = s.length / 2
  | [] => rfl
  | [c] => by
      have h1 : Viem.pairsToBytes [c] = [] := rfl
      rw [h1]
      simp
  | c1 :: c2 :: rest => by
      simp only [Viem.pairsToBytes, List.length_cons]
      rw [pairsToBytes_length rest]
      omega

theorem hexToBytes_cons0x_even (s : List Char) (hlen : s.length % 2 = 0)
    (h : s.all isHexDigit = true) :
    Viem.hexToBytes ('0' :: 'x' :: s) = some (Viem.pairsToBytes s) := by
  unfold Viem.hexToBytes
  simp only [List.drop_succ_cons, List.drop_zero]
  rw [if_neg (show ¬s.length % 2 = 1 by omega), if_pos h]

/-- C1: the AAD builder encodes zero/absent fields as the empty byte string:
a nonce normalizing to 0, a value of 0, `signedRead = false`, a
`messageVersion` of `0x0`/`0x00`/`0x`, an `encryptionNonce` normalizing to
`0x0`/`0x00`, and an absent recipient all yield the empty byte string as
their RLP list item (whose RLP encoding is the single byte `0x80`), while a
present recipient yields its raw 20 address bytes. -/
theorem aad_zero_and_absent_fields_encode_empty :
    (∀ tx : Tx, normalizeNumeric tx.nonce = 0 →
      Viem.hexToBytes ((aadFieldsHex tx).getD 2 []) = some []) ∧
    (∀ tx : Tx, tx.value = 0 →
      Viem.hexToBytes ((aadFieldsHex tx).getD 4 []) = some []) ∧
    (∀ tx : Tx, tx.signedRead = false →
      Viem.hexToBytes ((aadFieldsHex tx).getD 10 []) = some []) ∧
    (∀ tx : Tx,
      tx.messageVersion = ['0', 'x', '0'] ∨ tx.messageVersion = ['0', 'x', '0', '0'] ∨
        tx.messageVersion = ['0', 'x'] →
      Viem.hexToBytes ((aadFieldsHex tx).getD 7 []) = some []) ∧
    (∀ tx : Tx,
      ensureHexPrefixed tx.encryptionNonce = ['0', 'x', '0'] ∨
        ensureHexPrefixed tx.encryptionNonce = ['0', 'x', '0', '0'] →
      Viem.hexToBytes ((aadFieldsHex tx).getD 6 []) = some []) ∧
    (∀ tx : Tx, tx.to_ = none →
      Viem.hexToBytes ((aadFieldsHex tx).getD 3 []) = some []) ∧
    (∀ (tx : Tx) (rest : List Char), tx.to_ = some ('0' :: 'x' :: rest) →
      rest.length = 40 → rest.all isHexDigit = true →
      Viem.hexToBytes ((aadFieldsHex tx).getD 3 []) = some (Viem.pairsToBytes rest) ∧
        (Viem.pairsToBytes rest).length = 20) ∧
    Viem.rlpEncodeBytes [] = [0x80] := by
  refine ⟨?_, ?_, ?_, ?_, ?_, ?_, ?_, by decide⟩
  · intro tx h
    rw [aadFieldsHex_getD_two, if_pos h]
    decide
  · intro tx h
    rw [aadFieldsHex_getD_four, if_pos h]
    decide
  · intro tx h
    rw [aadFieldsHex_getD_ten, if_neg (by simp [h])]
    decide
  · intro tx h
    rw [aadFieldsHex_getD_seven, if_pos h]
    decide
  · intro tx h
    rw [aadFieldsHex_getD_six, if_pos h.symm]
    decide
  · intro tx h
    rw [aadFieldsHex_getD_three, h]
    decide
  · intro tx rest hto hlen hhex
    rw [aadFieldsHex_getD_three, hto]
    refine ⟨hexToBytes_cons0x_even rest (by omega) hhex, ?_⟩
    rw [pairsToBytes_length rest, hlen]

/-- Witness for C1 at a concrete transaction with `nonce = 0`. -/
theorem aad_zero_and_absent_fields_encode_empty_witness :
    Viem.hexToBytes ((aadFieldsHex txA7).getD 2 []) = some [] :=
  aad_zero_and_absent_fields_encode_empty.1 txA7 (by decide)

/-- C6: `constructAAD` is a deterministic pure function of exactly the 11
authenticated metadata fields: transactions agreeing on them (whatever
their `input` and `blockNumber`) produce identical field arrays and
byte-identical AAD output. -/
theorem constructAAD_deterministic (tx1 tx2 : Tx)
    (hfrom : tx1.from_ = tx2.from_) (hchain : tx1.chainId = tx2.chainId)
    (hnonce : tx1.nonce = tx2.nonce) (hto : tx1.to_ = tx2.to_)
    (hvalue : tx1.value = tx2.value)
    (hpk : tx1.encryptionPubkey = tx2.encryptionPubkey)
    (hen : tx1.encryptionNonce = tx2.encryptionNonce)
    (hmv : tx1.messageVersion = tx2.messageVersion)
    (hbh : tx1.recentBlockHash = tx2.recentBlockHash)
    (hexp : tx1.expiresAtBlock = tx2.expiresAtBlock)
    (hsr : tx1.signedRead = tx2.signedRead) :
    aadFieldsHex tx1 = aadFieldsHex tx2 ∧ constructAAD tx1 = constructAAD tx2 := by
  have hf : aadFieldsHex tx1 = aadFieldsHex tx2 := by
    simp only [aadFieldsHex, hfrom, hchain, hnonce, hto, hvalue, hpk, hen, hmv, hbh,
      hexp, hsr]
  exact ⟨hf, by unfold constructAAD; rw [hf]⟩

/-- Witness for C6: concrete transactions differing only in `input` and
`blockNumber` yield the same AAD. -/
theorem constructAAD_deterministic_witness :
    aadFieldsHex txA7 = aadFieldsHex txC6b ∧ constructAAD txA7 = constructAAD txC6b :=
  constructAAD_deterministic txA7 txC6b rfl rfl rfl rfl rfl rfl rfl rfl rfl rfl rfl

theorem hexListToBytes_all (fs : List (List Char))
    (h : ∀ f ∈ fs, (Viem.hexToBytes f).isSome = true) :
    Viem.hexListToBytes fs = some (fs.map fun f => (Viem.hexToBytes f).getD []) := by
  induction fs with
  | nil => rfl
  | cons f rest ih =>
    obtain ⟨b, hb⟩ := Option.isSome_iff_exists.mp (h f (by simp))
    rw [List.map_cons, Viem.hexListToBytes,
      ih (fun g hg => h g (List.mem_cons_of_mem _ hg)), hb]
    rfl

theorem aad_payload_eq (tx : Tx) :
    (List.map Viem.rlpEncodeBytes
        ((aadFieldsHex tx).map fun f => (Viem.hexToBytes f).getD [])).flatten =
      aadPayload tx := by
  simp only [aadPayload, aadPre, aadSuf, aadItemEnc,
    aadFieldsHex_getD_zero, aadFieldsHex_getD_one, aadFieldsHex_getD_two,
    aadFieldsHex_getD_three, aadFieldsHex_getD_four, aadFieldsHex_getD_five,
    aadFieldsHex_getD_six, aadFieldsHex_getD_seven, aadFieldsHex_getD_eight,
    aadFieldsHex_getD_nine, aadFieldsHex_getD_ten]
  simp only [aadFieldsHex, List.map_cons, List.map_nil, List.flatten_cons,
    List.flatten_nil, List.append_assoc, List.append_nil]

theorem constructAAD_decomp (tx : Tx)
    (h : ∀ f ∈ aadFieldsHex tx, (Viem.hexToBytes f).isSome = true) :
    constructAAD tx =
      some (Viem.rlpListHeader (aadPayload tx).length ++
        (aadPre tx ++ (aadItemEnc tx 2 ++ aadSuf tx))) := by
  unfold constructAAD Viem.toRlp
  rw [hexListToBytes_all _ h]
  simp only [Option.map_some', Viem.rlpEncodeList]
  rw [aad_payload_eq]
  simp only [aadPayload, List.append_assoc]

/-- C7 (amended): varying only the nonce leaves every AAD item other than
the nonce's RLP item byte-identical — the items before and after the nonce
region are unchanged — while the list header's payload-length bytes track
the payload length (and so may change when the nonce item length changes). -/
theorem aad_nonce_frame (tx1 tx2 : Tx)
    (hfrom : tx1.from_ = tx2.from_) (hchain : tx1.chainId = tx2.chainId)
    (hto : tx1.to_ = tx2.to_) (hvalue : tx1.value = tx2.value)
    (hpk : tx1.encryptionPubkey = tx2.encryptionPubkey)
    (hen : tx1.encryptionNonce = tx2.encryptionNonce)
    (hmv : tx1.messageVersion = tx2.messageVersion)
    (hbh : tx1.recentBlockHash = tx2.recentBlockHash)
    (hexp : tx1.expiresAtBlock = tx2.expiresAtBlock)
    (hsr : tx1.signedRead = tx2.signedRead)
    (hv1 : ∀ f ∈ aadFieldsHex tx1, (Viem.hexToBytes f).isSome = true)
    (hv2 : ∀ f ∈ aadFieldsHex tx2, (Viem.hexToBytes f).isSome = true) :
    constructAAD tx1 =
      some (Viem.rlpListHeader (aadPayload tx1).length ++
        (aadPre tx1 ++ (aadItemEnc tx1 2 ++ aadSuf tx1))) ∧
    constructAAD tx2 =
      some (Viem.rlpListHeader (aadPayload tx2).length ++
        (aadPre tx2 ++ (aadItemEnc tx2 2 ++ aadSuf tx2))) ∧
    aadPre tx1 = aadPre tx2 ∧ aadSuf tx1 = aadSuf tx2 := by
  refine ⟨constructAAD_decomp tx1 hv1, constructAAD_decomp tx2 hv2, ?_, ?_⟩
  · simp only [aadPre, aadItemEnc, aadFieldsHex_getD_zero, aadFieldsHex_getD_one,
      hfrom, hchain]
  · simp only [aadSuf, aadItemEnc, aadFieldsHex_getD_three, aadFieldsHex_getD_four,
      aadFieldsHex_getD_five, aadFieldsHex_getD_six, aadFieldsHex_getD_seven,
      aadFieldsHex_getD_eight, aadFieldsHex_getD_nine, aadFieldsHex_getD_ten,
      hto, hvalue, hpk, hen, hmv, hbh, hexp, hsr]

/-- Witness for the amended C7 at concrete transactions differing only in
the nonce. -/
theorem aad_nonce_frame_witness :
    aadPre txA7 = aadPre txB7 ∧ aadSuf txA7 = aadSuf txB7 :=
  let h := aad_nonce_frame txA7 txB7 rfl rfl rfl rfl rfl rfl rfl rfl rfl rfl
    (by decide) (by decide)
  ⟨h.2.2.1, h.2.2.2⟩

/-- Counterexample to C7 as stated: for two transactions differing only in
the nonce (0 vs 256), the second byte of the encoded AAD — part of the
overall list length prefix, outside the nonce's RLP item region in both
outputs — changes. -/
theorem aad_nonce_frame_counterexample :
    txB7 = { txA7 with nonce := NumLike.num 256 } ∧
    1 < nonceRegionStart txA7 ∧ 1 < nonceRegionStart txB7 ∧
    ((constructAAD txA7).getD []).getD 1 0 ≠ ((constructAAD txB7).getD []).getD 1 0 := by
  refine ⟨rfl, by decide, by decide, by decide⟩

end TransactionDecryption

namespace TransactionDecryption

/-- `extractFunctionSelector` from transaction-decryption.ts:
`calldata.slice(0, 10)` — the `0x` prefix plus 8 hex digits. -/
def extractFunctionSelector (calldata : List Char) : List Char :=
  calldata.take 10

/-- `extractCalldataParams` from transaction-decryption.ts:
`` `0x${calldata.slice(10)}` ``. -/
def extractCalldataParams (calldata : List Char) : List Char :=
  '0' :: 'x' :: calldata.drop 10

/-- C10: for `0x`-prefixed calldata of at least 10 characters, the selector
is the first 10 characters, the params are `0x` plus the rest, and selector
plus the params' hex digits reconstruct the original calldata. -/
theorem extract_selector_params_reconstruct (calldata : List Char)
    (hpre : startsWith0x calldata = true) (hlen : 10 ≤ calldata.length) :
    extractFunctionSelector calldata = calldata.take 10 ∧
    extractCalldataParams calldata = '0' :: 'x' :: calldata.drop 10 ∧
    extractFunctionSelector calldata ++ (extractCalldataParams calldata).drop 2 =
      calldata := by
  refine ⟨rfl, rfl, ?_⟩
  simp only [extractFunctionSelector, extractCalldataParams, List.drop_succ_cons,
    List.drop_zero, List.take_append_drop]

/-- Witness for C10 on a concrete 12-character calldata string. -/
theorem extract_selector_params_reconstruct_witness :
    extractFunctionSelector "0xa9059cbb12".data ++
        (extractCalldataParams "0xa9059cbb12".data).drop 2 = "0xa9059cbb12".data :=
  (extract_selector_params_reconstruct "0xa9059cbb12".data (by decide) (by decide)).2.2

end TransactionDecryption

namespace Signer

/-- The raw-sign request body that `signRawMessage` submits to Fireblocks
(`extraParameters.rawMessageData.messages[0].content`). -/
structure RawMessageRequest where
  content : List Char
deriving DecidableEq

inductive SignError where
  | wrongLength (got : Nat)
deriving DecidableEq

/-- The input-validation stage of `signRawMessage` from signer.ts: strip an
optional `0x` prefix and throw unless exactly 64 hex characters remain; the
Fireblocks `createTransaction` call happens only after this check, so the
error case carries no request. -/
def signRawMessage (messageHex : List Char) : Except SignError RawMessageRequest :=
  let content := if startsWith0x messageHex then messageHex.drop 2 else messageHex
  if content.length ≠ 64 then Except.error (SignError.wrongLength content.length)
  else Except.ok ⟨content⟩

/-- C9: `signRawMessage` errors out, before any external signing request
exists, exactly when the stripped message is not 64 hex characters; a
64-character stripped message produces the request and no length error. -/
theorem signRawMessage_length_check (messageHex : List Char) :
    ((if startsWith0x messageHex then messageHex.drop 2 else messageHex).length ≠ 64 →
      signRawMessage messageHex =
        Except.error (SignError.wrongLength
          (if startsWith0x messageHex then messageHex.drop 2 else messageHex).length)) ∧
    ((if startsWith0x messageHex then messageHex.drop 2 else messageHex).length = 64 →
      signRawMessage messageHex =
        Except.ok ⟨if startsWith0x messageHex then messageHex.drop 2 else messageHex⟩) := by
  constructor
  · intro h
    simp only [signRawMessage, if_pos h]
  · intro h
    simp only [signRawMessage, h]
    simp

/-- Witness for C9 on a 66-character `0x`-prefixed message (64 after
stripping). -/
theorem signRawMessage_length_check_witness :
    signRawMessage
        "0x1111111111111111111111111111111111111111111111111111111111111111".data =
      Except.ok
        ⟨"1111111111111111111111111111111111111111111111111111111111111111".data⟩ :=
  (signRawMessage_length_check
    "0x1111111111111111111111111111111111111111111111111111111111111111".data).2
    (by decide)

end Signer

namespace Sha256

/-- 32-bit right rotation. -/
def rotr32 (n x : Nat) : Nat := ((x >>> n) ||| (x <<< (32 - n))) % (2 ^ 32)

/-- FIPS 180-4 round constants `K₀…K₆₃` (the fractional cube-root words
`0x428a2f98, 0x71374491, …, 0xc67178f2`, written in decimal). -/
def K : List Nat :=
  [1116352408, 1899447441, 3049323471, 3921009573, 961987163,
   1508970993, 2453635748, 2870763221, 3624381080, 310598401,
   607225278, 1426881987, 1925078388, 2162078206, 2614888103,
   3248222580, 3835390401, 4022224774, 264347078, 604807628,
   770255983, 1249150122, 1555081692, 1996064986, 2554220882,
   2821834349, 2952996808, 3210313671, 3336571891, 3584528711,
   113926993, 338241895, 666307205, 773529912, 1294757372,
   1396182291, 1695183700, 1986661051, 2177026350, 2456956037,
   2730485921, 2820302411, 3259730800, 3345764771, 3516065817,
   3600352804, 4094571909, 275423344, 430227734, 506948616,
   659060556, 883997877, 958139571, 1322822218, 1537002063,
   1747873779, 1955562222, 2024104815, 2227730452, 2361852424,
   2428436474, 2756734187, 3204031479, 3329325298]

/-- FIPS 180-4 initial hash value `H₀…H₇` (the fractional square-root
words `0x6a09e667, …, 0x5be0cd19`, written in decimal). -/
def H0 : List Nat :=
  [1779033703, 3144134277, 1013904242, 2773480762,
   1359893119, 2600822924, 528734635, 1541459225]

def bigSigma0 (x : Nat) : Nat := rotr32 2 x ^^^ rotr32 13 x ^^^ rotr32 22 x

def bigSigma1 (x : Nat) : Nat := rotr32 6 x ^^^ rotr32 11 x ^^^ rotr32 25 x

def smallSigma0 (x : Nat) : Nat := rotr32 7 x ^^^ rotr32 18 x ^^^ (x >>> 3)

def smallSigma1 (x : Nat) : Nat := rotr32 17 x ^^^ rotr32 19 x ^^^ (x >>> 10)

def ch (x y z : Nat) : Nat := (x &&& y) ^^^ ((x ^^^ 0xffffffff) &&& z)

def maj (x y z : Nat) : Nat := (x &&& y) ^^^ (x &&& z) ^^^ (y &&& z)

/-- FIPS 180-4 padding: `0x80`, zeros, then the 64-bit big-endian bit
length, to a multiple of 64 bytes. -/
def padMessage (msg : List Nat) : List Nat :=
  let l := msg.length
  let z := (120 - ((l + 1) % 64)) % 64
  msg ++ 0x80 :: (List.replicate z 0 ++ beBytesPad 8 ((8 * l) % (2 ^ 64)))

/-- Big-endian 32-bit words from bytes. -/
def bytesToWords : List Nat → List Nat
  | b0 :: b1 :: b2 :: b3 :: rest =>
      (b0 * 2 ^ 24 + b1 * 2 ^ 16 + b2 * 2 ^ 8 + b3) :: bytesToWords rest
  | _ => []

/-- Extend a 16-word schedule by `k` more words. -/
def extendSchedule : Nat → List Nat → List Nat
  | 0, w => w
  | k + 1, w =>
      let t := w.length
      let next := (smallSigma1 (w.getD (t - 2) 0) + w.getD (t - 7) 0 +
        smallSigma0 (w.getD (t - 15) 0) + w.getD (t - 16) 0) % (2 ^ 32)
      extendSchedule k (w ++ [next])

/-- One compression round on the `[a,b,c,d,e,f,g,h]` working variables. -/
def round (st : List Nat) (k w : Nat) : List Nat :=
  match st with
  | [a, b, c, d, e, f, g, h] =>
      let t1 := (h + bigSigma1 e + ch e f g + k + w) % (2 ^ 32)
      let t2 := (bigSigma0 a + maj a b c) % (2 ^ 32)
      [(t1 + t2) % (2 ^ 32), a, b, c, (d + t1) % (2 ^ 32), e, f, g]
  | _ => st

/-- Compress one 64-byte block into the hash state. -/
def compressBlock (h : List Nat) (block : List Nat) : List Nat :=
  let w := extendSchedule 48 (bytesToWords block)
  let st := (List.range 64).foldl (fun st i => round st (K.getD i 0) (w.getD i 0)) h
  List.zipWith (fun x y => (x + y) % (2 ^ 32)) h st

/-- Structural worker for `chunks64`; the first argument is fuel, always
called with `fuel ≥ l.length`. -/
def chunks64Aux : Nat → List Nat → List (List Nat)
  | 0, _ => []
  | _ + 1, [] => []
  | fuel + 1, x :: rest =>
      (x :: rest).take 64 :: chunks64Aux fuel ((x :: rest).drop 64)

/-- Split a byte string into 64-byte blocks. -/
def chunks64 (l : List Nat) : List (List Nat) := chunks64Aux l.length l

/-- SHA-256 of a byte string (the `crypto.subtle.digest("SHA-256", ·)`
primitive used by key-derivation.ts). -/
def sha256 (msg : List Nat) : List Nat :=
  let h := (chunks64 (padMessage msg)).foldl compressBlock H0
  (h.map (beBytesPad 4)).flatten

end Sha256

theorem beBytesAux_length_le :
    ∀ (fuel n k : Nat), n < 256 ^ k → n ≤ fuel → (beBytesAux fuel n).length ≤ k := by
  intro fuel
  induction fuel with
  | zero => intro n k _ _; simp [beBytesAux]
  | succ fuel ih =>
    intro n k hk hf
    match n with
    | 0 => simp [beBytesAux]
    | n + 1 =>
      match k with
      | 0 => omega
      | k + 1 =>
        have h1 : (n + 1) / 256 < 256 ^ k := by
          apply Nat.div_lt_of_lt_mul
          have : 256 ^ (k + 1) = 256 * 256 ^ k := by ring
          omega
        have h2 : (n + 1) / 256 ≤ fuel := by
          have := Nat.div_le_self (n + 1) 256
          have := Nat.div_lt_self (by omega : 0 < n + 1) (by decide : 1 < 256)
          omega
        have := ih ((n + 1) / 256) k h1 h2
        simp only [beBytesAux, List.length_append, List.length_cons, List.length_nil]
        omega

theorem beBytes_length_le (n k : Nat) (h : n < 256 ^ k) : (beBytes n).length ≤ k :=
  beBytesAux_length_le n n k h le_rfl

theorem beBytesPad_length (w n : Nat) (h : n < 256 ^ w) : (beBytesPad w n).length = w := by
  have := beBytes_length_le n w h
  simp only [beBytesPad, List.length_append, List.length_replicate]
  omega

namespace Sha256

theorem round_length (st : List Nat) (k w : Nat) : (round st k w).length = st.length := by
  unfold round
  split
  · simp
  · rfl

theorem foldl_round_length (xs : List Nat) (kw : Nat → Nat → Nat) :
    ∀ st : List Nat,
      (xs.foldl (fun st i => round st (K.getD i 0) (kw i 0)) st).length = st.length := by
  induction xs with
  | nil => intro st; rfl
  | cons x xs ih =>
    intro st
    simp only [List.foldl_cons]
    rw [ih, round_length]

theorem mem_zipWith_addmod (a : List Nat) :
    ∀ (b : List Nat), ∀ x ∈ List.zipWith (fun y z => (y + z) % (2 ^ 32)) a b,
      x < 2 ^ 32 := by
  induction a with
  | nil => intro b x hx; simp [List.zipWith] at hx
  | cons y a ih =>
    intro b x hx
    match b with
    | [] => simp [List.zipWith] at hx
    | z :: b =>
      simp only [List.zipWith_cons_cons, List.mem_cons] at hx
      rcases hx with h | h
      · subst h; exact Nat.mod_lt _ (by norm_num)
      · exact ih b x h

theorem compressBlock_inv (h block : List Nat) (hh : h.length = 8) :
    (compressBlock h block).length = 8 ∧ ∀ x ∈ compressBlock h block, x < 2 ^ 32 := by
  unfold compressBlock
  constructor
  · rw [List.length_zipWith]
    rw [show ((List.range 64).foldl _ h).length = h.length from
      foldl_round_length _ _ h]
    omega
  · intro x hx
    exact mem_zipWith_addmod _ _ x hx

theorem sha_fold_inv (blocks : List (List Nat)) :
    ∀ h0 : List Nat, h0.length = 8 → (∀ x ∈ h0, x < 2 ^ 32) →
      (blocks.foldl compressBlock h0).length = 8 ∧
        ∀ x ∈ blocks.foldl compressBlock h0, x < 2 ^ 32 := by
  induction blocks with
  | nil => intro h0 h1 h2; exact ⟨h1, h2⟩
  | cons b bs ih =>
    intro h0 h1 h2
    simp only [List.foldl_cons]
    obtain ⟨ha, hb⟩ := compressBlock_inv h0 b h1
    exact ih _ ha hb

theorem flatten_map_beBytesPad4 (l : List Nat) (hb : ∀ x ∈ l, x < 2 ^ 32) :
    ((l.map (beBytesPad 4)).flatten).length = 4 * l.length := by
  induction l with
  | nil => rfl
  | cons x l ih =>
    simp only [List.map_cons, List.flatten_cons, List.length_append, List.length_cons]
    rw [beBytesPad_length 4 x (by have := hb x (by simp); norm_num at this ⊢; omega),
      ih (fun y hy => hb y (by simp [hy]))]
    ring

/-- SHA-256 always produces a 32-byte digest. -/
theorem sha256_length (msg : List Nat) : (sha256 msg).length = 32 := by
  unfold sha256
  obtain ⟨h1, h2⟩ := sha_fold_inv (chunks64 (padMessage msg)) H0 (by decide) (by decide)
  rw [flatten_map_beBytesPad4 _ h2, h1]

end Sha256

namespace KeyDerivation

/-- JS `parseInt` on a two-character slice as used by the local
`hexToBytes`: both digits valid gives the byte, a trailing invalid
character truncates the parse, a leading invalid character gives `NaN`,
stored by the `Uint8Array` as 0. -/
def parseIntHex2 (c1 c2 : Char) : Nat :=
  match hexDigitVal c1, hexDigitVal c2 with
  | some a, some b => 16 * a + b
  | some a, none => a
  | none, _ => 0

def pairsToBytesJS : List Char → List Nat
  | c1 :: c2 :: rest => parseIntHex2 c1 c2 :: pairsToBytesJS rest
  | _ => []

/-- The local `hexToBytes` of key-derivation.ts (and encryption.ts): strip
an optional `0x`; an odd digit count makes `new Uint8Array(clean.length/2)`
throw on the non-integer length, modelled as `none`. -/
def hexToBytes (hex : List Char) : Option (List Nat) :=
  let clean := if startsWith0x hex then hex.drop 2 else hex
  if clean.length % 2 = 0 then some (pairsToBytesJS clean) else none

/-- JS `b.toString(16).padStart(2, "0")`. -/
def byteToHexChars (b : Nat) : List Char :=
  let s := natToHexStr b
  List.replicate (2 - s.length) '0' ++ s

/-- The local `bytesToHex` of key-derivation.ts (and encryption.ts):
`0x` plus two lower-case digits per byte. -/
def bytesToHex (bytes : List Nat) : List Char :=
  '0' :: 'x' :: (bytes.map byteToHexChars).flatten

/-- The Fireblocks raw-signature result shape (signer.ts). -/
structure RawSignatureResult where
  r : List Char
  s : List Char
  v : Nat
  fullSig : List Char
  publicKey : List Char
deriving DecidableEq

/-- `deriveKeyFromSignature` from key-derivation.ts:
`signature.fullSig → SHA-256 → 32-byte key`, returned as hex; `none` when
`fullSig` has an odd digit count (the local `hexToBytes` throws). -/
def deriveKeyFromSignature (signature : RawSignatureResult) : Option (List Char) :=
  (hexToBytes signature.fullSig).map fun sigBytes => bytesToHex (Sha256.sha256 sigBytes)

/-- C5: `deriveKeyFromSignature` returns exactly the SHA-256 hash of the
signature's `fullSig` bytes — a 32-byte value — and is deterministic:
byte-identical `fullSig` inputs give byte-identical keys. -/
theorem deriveKeyFromSignature_is_sha256 :
    (∀ (sig : RawSignatureResult) (sigBytes : List Nat),
      hexToBytes sig.fullSig = some sigBytes →
      deriveKeyFromSignature sig = some (bytesToHex (Sha256.sha256 sigBytes)) ∧
        (Sha256.sha256 sigBytes).length = 32) ∧
    (∀ sig1 sig2 : RawSignatureResult, sig1.fullSig = sig2.fullSig →
      deriveKeyFromSignature sig1 = deriveKeyFromSignature sig2) := by
  constructor
  · intro sig sigBytes h
    refine ⟨?_, Sha256.sha256_length sigBytes⟩
    simp [deriveKeyFromSignature, h]
  · intro sig1 sig2 h
    simp [deriveKeyFromSignature, h]

/-- Witness for C5 at a concrete two-byte signature. -/
theorem deriveKeyFromSignature_is_sha256_witness :
    deriveKeyFromSignature ⟨"0x01".data, "0x02".data, 27, "0x1234".data, "0x03".data⟩ =
      some (bytesToHex (Sha256.sha256 [0x12, 0x34])) ∧
      (Sha256.sha256 [0x12, 0x34]).length = 32 :=
  deriveKeyFromSignature_is_sha256.1
    ⟨"0x01".data, "0x02".data, 27, "0x1234".data, "0x03".data⟩ [0x12, 0x34] (by decide)

end KeyDerivation

namespace Secp256k1

/-- The secp256k1 base field prime. -/
def P : Nat := 2 ^ 256 - 2 ^ 32 - 977

/-- The secp256k1 group order. -/
def N : Nat := 0xfffffffffffffffffffffffffffffffebaaedce6af48a03bbfd25e8cd0364141

/-- Square-and-multiply worker for `powMod`; the first argument is fuel,
always called with `fuel ≥` the number of halvings of the exponent. -/
def powModAux : Nat → Nat → Nat → Nat → Nat
  | 0, _, _, m => 1 % m
  | _ + 1, _, 0, m => 1 % m
  | fuel + 1, b, e + 1, m =>
      let h := powModAux fuel (b * b % m) ((e + 1) / 2) m
      if (e + 1) % 2 = 1 then h * b % m else h

/-- `b ^ e mod m`. -/
def powMod (b e m : Nat) : Nat := powModAux e b e m

/-- Field inverse mod `P` by Fermat's little theorem. -/
def finv (a : Nat) : Nat := powMod a (P - 2) P

/-- `(a - b) mod p` on naturals. -/
def subMod (a b p : Nat) : Nat := (a % p + (p - b % p)) % p

/-- A point of the curve: the point at infinity or affine coordinates. -/
inductive Point where
  | infinity
  | affine (x y : Nat)
deriving DecidableEq

def pointDouble : Point → Point
  | .infinity => .infinity
  | .affine x y =>
      if y % P = 0 then .infinity
      else
        let lam := 3 * x * x % P * finv (2 * y % P) % P
        let x3 := subMod (lam * lam) (2 * x) P
        .affine x3 (subMod (lam * subMod x x3 P) y P)

def pointAdd : Point → Point → Point
  | .infinity, q => q
  | p, .infinity => p
  | .affine x1 y1, .affine x2 y2 =>
      if x1 % P = x2 % P then
        if (y1 + y2) % P = 0 then .infinity else pointDouble (.affine x1 y1)
      else
        let lam := subMod y2 y1 P * finv (subMod x2 x1 P) % P
        let x3 := subMod (subMod (lam * lam) x1 P) x2 P
        .affine x3 (subMod (lam * subMod x1 x3 P) y1 P)

/-- Double-and-add worker for `scalarMult`; the first argument is fuel,
always called with `fuel ≥` the number of halvings of the scalar. -/
def scalarMultAux : Nat → Nat → Point → Point
  | 0, _, _ => .infinity
  | _ + 1, 0, _ => .infinity
  | fuel + 1, k + 1, p =>
      let h := pointDouble (scalarMultAux fuel ((k + 1) / 2) p)
      if (k + 1) % 2 = 1 then pointAdd h p else h

/-- Scalar multiplication `k · p`. -/
def scalarMult (k : Nat) (p : Point) : Point := scalarMultAux k k p

/-- Modular square root for `P ≡ 3 (mod 4)`. -/
def sqrtMod (a : Nat) : Nat := powMod a ((P + 1) / 4) P

/-- Parse a 33-byte compressed SEC1 point, as noble's `Point.fromHex`:
a `02`/`03` parity byte plus the 32-byte x-coordinate; anything else —
wrong length, x out of range, or x not on the curve — is rejected. -/
def decompressPoint (bytes : List Nat) : Option Point :=
  match bytes with
  | [] => none
  | pb :: rest =>
      if rest.length = 32 ∧ (pb = 2 ∨ pb = 3) then
        let x := beNat rest
        if x < P then
          let y2 := (powMod x 3 P + 7) % P
          let y := sqrtMod y2
          if y * y % P = y2 then
            some (.affine x (if y % 2 = pb % 2 then y else P - y))
          else none
        else none
      else none

/-- Compressed SEC1 encoding of an affine point. -/
def compressPoint : Point → Option (List Nat)
  | .infinity => none
  | .affine x y => some ((if y % 2 = 0 then 2 else 3) :: beBytesPad 32 x)

/-- noble's `secp256k1.getSharedSecret(priv, pub, true)`: validate the
scalar range and the compressed public point, multiply, and return the
compressed 33-byte shared point; failures throw (`none`). -/
def getSharedSecret (privBytes pubBytes : List Nat) : Option (List Nat) :=
  let d := beNat privBytes
  if 1 ≤ d ∧ d < N then
    match decompressPoint pubBytes with
    | some q => compressPoint (scalarMult d q)
    | none => none
  else none

end Secp256k1

namespace Hkdf

/-- HMAC-SHA256 (RFC 2104): hash over-long keys, zero-pad to the 64-byte
block, XOR with `ipad`/`opad`. -/
def hmacSha256 (key msg : List Nat) : List Nat :=
  let key := if 64 < key.length then Sha256.sha256 key else key
  let key := key ++ List.replicate (64 - key.length) 0
  let ipad := key.map (fun b => b ^^^ 0x36)
  let opad := key.map (fun b => b ^^^ 0x5c)
  Sha256.sha256 (opad ++ Sha256.sha256 (ipad ++ msg))

/-- RFC 5869 HKDF-SHA256 with no salt (32 zero bytes per the RFC default,
as in noble's `hkdf(sha256, ikm, undefined, info, 32)`) and 32-byte output:
`HMAC(HMAC(zeros, ikm), info ‖ 0x01)`. -/
def hkdfSha256 (ikm info : List Nat) : List Nat :=
  hmacSha256 (hmacSha256 (List.replicate 32 0) ikm) (info ++ [1])

theorem hmacSha256_length (key msg : List Nat) : (hmacSha256 key msg).length = 32 :=
  Sha256.sha256_length _

theorem hkdfSha256_length (ikm info : List Nat) : (hkdfSha256 ikm info).length = 32 :=
  hmacSha256_length _ _

end Hkdf

namespace TransactionDecryption

/-- The hardcoded Seismic testnet TEE public key, exactly as in the
source — note that the literal has no `0x` prefix. -/
def NETWORK_TEE_PUBLIC_KEY : List Char :=
  "028e76821eb4d77fd30223ca971c49738eb5b5b71eabe93f96b348fdce788ae5a0".data

/-- UTF-8 bytes of the fixed HKDF info label `"aes-gcm key"`. -/
def aesGcmKeyInfo : List Nat := "aes-gcm key".data.map Char.toNat

/-- What viem's `hexToBytes` makes of the prefix-less TEE key constant:
`slice(2)` drops the leading `02` parity byte, leaving only the 32
x-coordinate bytes. -/
def teePubkeyViemBytes : List Nat := (Viem.hexToBytes NETWORK_TEE_PUBLIC_KEY).getD []

/-- `deriveAesKeyFromECDH` from the transaction-decryption source: viem
`hexToBytes` on both keys, noble `getSharedSecret` (compressed), drop the
parity byte of the shared point, HKDF-SHA256 with no salt and info
`"aes-gcm key"`. Each library failure throws, modelled as `none`. -/
def deriveAesKeyFromECDH (encryptionSk : List Char) : Option (List Nat) :=
  match Viem.hexToBytes encryptionSk, Viem.hexToBytes NETWORK_TEE_PUBLIC_KEY with
  | some privateKeyBytes, some networkPublicKeyBytes =>
      (Secp256k1.getSharedSecret privateKeyBytes networkPublicKeyBytes).map
        (fun sharedSecret => Hkdf.hkdfSha256 (sharedSecret.drop 1) aesGcmKeyInfo)
  | _, _ => none

/-- C4 (code bug): because the TEE key constant lacks its `0x` prefix,
viem's `hexToBytes` hands noble a 32-byte x-only string, `getSharedSecret`
rejects it, and `deriveAesKeyFromECDH` fails on *every* secret key instead
of computing the claimed x-coordinate + HKDF-SHA256 derivation; the
HKDF-SHA256 expansion itself does emit 32 bytes whenever ECDH succeeds. -/
theorem deriveAesKeyFromECDH_always_fails :
    (∀ encryptionSk : List Char, deriveAesKeyFromECDH encryptionSk = none) ∧
    deriveAesKeyFromECDH
      "0x0101010101010101010101010101010101010101010101010101010101010101".data =
        none ∧
    (∀ priv pub shared : List Nat, Secp256k1.getSharedSecret priv pub = some shared →
      (Hkdf.hkdfSha256 (shared.drop 1) aesGcmKeyInfo).length = 32) := by
  have hpub : Viem.hexToBytes NETWORK_TEE_PUBLIC_KEY = some teePubkeyViemBytes := by
    decide
  have hdec : Secp256k1.decompressPoint teePubkeyViemBytes = none := by decide
  have hshared : ∀ priv : List Nat,
      Secp256k1.getSharedSecret priv teePubkeyViemBytes = none := by
    intro priv
    unfold Secp256k1.getSharedSecret
    rw [hdec]
    simp
  have hall : ∀ encryptionSk : List Char, deriveAesKeyFromECDH encryptionSk = none := by
    intro sk
    unfold deriveAesKeyFromECDH
    rw [hpub]
    rcases Viem.hexToBytes sk with _ | priv
    · rfl
    · show (Secp256k1.getSharedSecret priv teePubkeyViemBytes).map _ = none
      rw [hshared priv]
      rfl
  exact ⟨hall, hall _, fun priv pub shared _ => Hkdf.hkdfSha256_length _ _⟩

/-- Witness for the HKDF conjunct of the C4 theorem: scalar 1 against the
compressed secp256k1 generator yields the generator back, and HKDF expands
its x-coordinate to 32 bytes. -/
theorem deriveAesKeyFromECDH_always_fails_witness :
    (Hkdf.hkdfSha256
        (((Secp256k1.getSharedSecret (beBytesPad 32 1)
            (2 :: beBytesPad 32
              0x79be667ef9dcbbac55a06295ce870b07029bfcdb2dce28d959f2815b16f81798)).getD
          []).drop 1)
        aesGcmKeyInfo).length = 32 :=
  deriveAesKeyFromECDH_always_fails.2.2 (beBytesPad 32 1)
    (2 :: beBytesPad 32
      0x79be667ef9dcbbac55a06295ce870b07029bfcdb2dce28d959f2815b16f81798)
    ((Secp256k1.getSharedSecret (beBytesPad 32 1)
        (2 :: beBytesPad 32
          0x79be667ef9dcbbac55a06295ce870b07029bfcdb2dce28d959f2815b16f81798)).getD [])
    (by decide)

end TransactionDecryption

namespace AesGcm

/-! AES-256-GCM per FIPS 197 and NIST SP 800-38D: the
`crypto.subtle.encrypt/decrypt({name: "AES-GCM"})` primitive used by
encryption.ts and the `AesGcmCrypto` cipher used by
transaction-decryption.ts. Bytes are `Nat < 256`; the state is the flat
column-major 16-byte block. -/

/-- Multiplication by `x` in GF(2^8) modulo `x^8 + x^4 + x^3 + x + 1`. -/
def xtime (a : Nat) : Nat :=
  (2 * a % 256) ^^^ (if a &&& 0x80 = 0 then 0 else 0x1b)

/-- Shift-and-add worker for `gf8Mul` over the 8 bits of `b`. -/
def gf8MulAux : Nat → Nat → Nat → Nat → Nat
  | 0, _, _, acc => acc
  | i + 1, a, b, acc =>
      gf8MulAux i (xtime a) (b / 2) (if b % 2 = 1 then acc ^^^ a else acc)

/-- GF(2^8) product. -/
def gf8Mul (a b : Nat) : Nat := gf8MulAux 8 a b 0

/-- GF(2^8) exponentiation by squaring (fuel-driven, `fuel ≥ n`). -/
def gf8PowAux : Nat → Nat → Nat → Nat
  | 0, _, _ => 1
  | _ + 1, _, 0 => 1
  | fuel + 1, a, n + 1 =>
      let h := gf8PowAux fuel (gf8Mul a a) ((n + 1) / 2)
      if (n + 1) % 2 = 1 then gf8Mul h a else h

def gf8Pow (a n : Nat) : Nat := gf8PowAux n a n

/-- 8-bit left rotation. -/
def rotl8 (x n : Nat) : Nat := ((x <<< n) ||| (x >>> (8 - n))) % 256

/-- The AES S-box by its FIPS 197 definition: multiplicative inverse
(`b^254`, with 0 fixed) followed by the affine transformation. -/
def sboxDef (b : Nat) : Nat :=
  let inv := if b = 0 then 0 else gf8Pow b 254
  inv ^^^ rotl8 inv 1 ^^^ rotl8 inv 2 ^^^ rotl8 inv 3 ^^^ rotl8 inv 4 ^^^ 0x63

/-- The 256 S-box bytes packed little-endian into one number, so that a
lookup is a shift and a mod; `sbox_eq_sboxDef` below proves the packing
agrees with the FIPS 197 definition at every byte. -/
def sboxPacked : Nat :=
  0x16bb54b00f2d99416842e6bf0d89a18cdf2855cee9871e9b948ed9691198f8e19e1dc186b95735610ef6034866b53e708a8bbd4b1f74dde8c6b4a61c2e2578ba08ae7a65eaf4566ca94ed58d6d37c8e779e4959162acd3c25c2406490a3a32e0db0b5ede14b8ee4688902a22dc4f816073195d643d7ea7c41744975fec130ccdd2f3ff1021dab6bcf5389d928f40a351a89f3c507f02f94585334d43fbaaefd0cf584c4a39becb6a5bb1fc20ed00d153842fe329b3d63b52a05a6e1b1a2c830975b227ebe28012079a059618c323c7041531d871f1e5a534ccf73f362693fdb7c072a49cafa2d4adf04759fa7dc982ca76abd7fe2b670130c56f6bf27b777c63

/-- S-box lookup. -/
def sbox (b : Nat) : Nat := sboxPacked >>> (8 * b) % 256

/-- The packed table agrees with the FIPS 197 S-box definition. -/
theorem sbox_eq_sboxDef : ∀ b < 256, sbox b = sboxDef b := by decide

/-- Big-endian bytes of a 32-bit word. -/
def wordBytes (w : Nat) : List Nat :=
  [w >>> 24 % 256, w >>> 16 % 256, w >>> 8 % 256, w % 256]

def subWord (w : Nat) : Nat :=
  sbox (w >>> 24 % 256) * 2 ^ 24 + sbox (w >>> 16 % 256) * 2 ^ 16 +
    sbox (w >>> 8 % 256) * 2 ^ 8 + sbox (w % 256)

def rotWord (w : Nat) : Nat := ((w <<< 8) ||| (w >>> 24)) % 2 ^ 32

/-- Round constant `rcon_i = x^(i-1)` in GF(2^8), as the top byte of a
word. -/
def rcon (i : Nat) : Nat := gf8Pow 2 (i - 1) * 2 ^ 24

/-- Append `k` further round-key words (FIPS 197 §5.2, Nk = 8). -/
def expandWordsAux : Nat → List Nat → List Nat
  | 0, ws => ws
  | k + 1, ws =>
      let i := ws.length
      let prev := ws.getD (i - 1) 0
      let temp :=
        if i % 8 = 0 then subWord (rotWord prev) ^^^ rcon (i / 8)
        else if i % 8 = 4 then subWord prev
        else prev
      expandWordsAux k (ws ++ [ws.getD (i - 8) 0 ^^^ temp])

/-- AES-256 key expansion: a 32-byte key to the 60-word schedule. -/
def keyExpansion (key : List Nat) : List Nat :=
  expandWordsAux 52 (Sha256.bytesToWords key)

/-- The 16 bytes of round key `r`. -/
def roundKeyBytes (ws : List Nat) (r : Nat) : List Nat :=
  ((List.range 4).map (fun j => wordBytes (ws.getD (4 * r + j) 0))).flatten

def subBytes (st : List Nat) : List Nat := st.map sbox

/-- ShiftRows on the flat state: `out[r + 4c] = in[r + 4((c + r) % 4)]`. -/
def shiftRows (st : List Nat) : List Nat :=
  (List.range 16).map (fun i => st.getD ((i + 4 * (i % 4)) % 16) 0)

def mixColumn (a0 a1 a2 a3 : Nat) : List Nat :=
  [gf8Mul 2 a0 ^^^ gf8Mul 3 a1 ^^^ a2 ^^^ a3,
   a0 ^^^ gf8Mul 2 a1 ^^^ gf8Mul 3 a2 ^^^ a3,
   a0 ^^^ a1 ^^^ gf8Mul 2 a2 ^^^ gf8Mul 3 a3,
   gf8Mul 3 a0 ^^^ a1 ^^^ a2 ^^^ gf8Mul 2 a3]

def mixColumns (st : List Nat) : List Nat :=
  ((List.range 4).map (fun c =>
    mixColumn (st.getD (4 * c) 0) (st.getD (4 * c + 1) 0)
      (st.getD (4 * c + 2) 0) (st.getD (4 * c + 3) 0))).flatten

def addRoundKey (st rk : List Nat) : List Nat := List.zipWith (· ^^^ ·) st rk

/-- AES-256 block encryption under an expanded key schedule `ws`. -/
def encryptBlock (ws block : List Nat) : List Nat :=
  let st0 := addRoundKey block (roundKeyBytes ws 0)
  let stMid := (List.range 13).foldl
    (fun st r => addRoundKey (mixColumns (shiftRows (subBytes st))) (roundKeyBytes ws (r + 1)))
    st0
  addRoundKey (shiftRows (subBytes stMid)) (roundKeyBytes ws 14)

/-- GF(2^128) product worker (SP 800-38D §6.3): scan the 128 bits of `x`
from the most significant down, accumulating `v`-multiples and reducing by
`R = 0xe1 ‖ 0^120`. -/
def gfMulAux : Nat → Nat → Nat → Nat → Nat
  | 0, _, _, z => z
  | f + 1, x, v, z =>
      gfMulAux f (x <<< 1 % 2 ^ 128)
        (if v % 2 = 1 then (v >>> 1) ^^^ (0xe1 <<< 120) else v >>> 1)
        (if x.testBit 127 then z ^^^ v else z)

/-- GF(2^128) product of two block values (big-endian integers). -/
def gfMul (x y : Nat) : Nat := gfMulAux 128 x y 0

/-- GHASH accumulator over complete 16-byte blocks. -/
def ghashAux (hk : Nat) : List (List Nat) → Nat → Nat
  | [], y => y
  | b :: rest, y => ghashAux hk rest (gfMul (y ^^^ beNat b) hk)

/-- Split into 16-byte blocks, zero-padding the last (fuel-driven). -/
def blocks16Aux : Nat → List Nat → List (List Nat)
  | 0, _ => []
  | _ + 1, [] => []
  | f + 1, x :: rest =>
      (((x :: rest).take 16) ++ List.replicate (16 - ((x :: rest).take 16).length) 0) ::
        blocks16Aux f ((x :: rest).drop 16)

def blocks16 (l : List Nat) : List (List Nat) := blocks16Aux l.length l

/-- The final GHASH block: 64-bit bit lengths of the AAD and ciphertext. -/
def lenBlock (aadLen ctLen : Nat) : List Nat :=
  beBytesPad 8 (8 * aadLen % 2 ^ 64) ++ beBytesPad 8 (8 * ctLen % 2 ^ 64)

/-- `GHASH_H(A ‖ pad ‖ C ‖ pad ‖ len(A) ‖ len(C))` as a 128-bit value. -/
def ghash (hk : Nat) (aad ct : List Nat) : Nat :=
  ghashAux hk (blocks16 aad ++ blocks16 ct ++ [lenBlock aad.length ct.length]) 0

/-- Counter block `iv ‖ cnt` for a 96-bit IV (`J0` has `cnt = 1`). -/
def ctrBlock (iv : List Nat) (cnt : Nat) : List Nat := iv ++ beBytesPad 4 (cnt % 2 ^ 32)

/-- Byte `i` of the CTR keystream (counters start at `inc32(J0) = 2`). -/
def ksByte (ws iv : List Nat) (i : Nat) : Nat :=
  (encryptBlock ws (ctrBlock iv (2 + i / 16))).getD (i % 16) 0

/-- GCTR: XOR the data with the keystream (both encryption and
decryption direction). -/
def gctr (ws iv data : List Nat) : List Nat :=
  (List.range data.length).map (fun i => data.getD i 0 ^^^ ksByte ws iv i)

/-- Byte `i` (big-endian) of a 128-bit value. -/
def natByteBE16 (s i : Nat) : Nat := s >>> (8 * (15 - i)) % 256

/-- The 16-byte GCM authentication tag `GHASH ⊕ CIPH(J0)`. -/
def computeTag (ws iv aad ct : List Nat) : List Nat :=
  let hk := beNat (encryptBlock ws (List.replicate 16 0))
  let s := ghash hk aad ct
  let ek := encryptBlock ws (ctrBlock iv 1)
  (List.range 16).map (fun i => natByteBE16 s i ^^^ ek.getD i 0)

/-- AES-256-GCM authenticated encryption: `ciphertext ‖ tag`, as
WebCrypto's `encrypt` returns it. -/
def seal_ (key iv plaintext aad : List Nat) : List Nat :=
  let ws := keyExpansion key
  gctr ws iv plaintext ++ computeTag ws iv aad (gctr ws iv plaintext)

/-- The failure signals of the codec: AEAD authentication failure (the one
`OperationError` WebCrypto and `AesGcmCrypto` throw, whatever the cause)
and key-agreement failure. -/
inductive CryptoError where
  | authenticationError
  | keyAgreementFailure
  | malformedInput
deriving DecidableEq

instance instDecEqExcept {ε α : Type} [DecidableEq ε] [DecidableEq α] :
    DecidableEq (Except ε α) := fun x y =>
  match x, y with
  | .ok a, .ok b =>
      if h : a = b then isTrue (by subst h; rfl)
      else isFalse (fun hh => h (by injection hh))
  | .error e, .error f =>
      if h : e = f then isTrue (by subst h; rfl)
      else isFalse (fun hh => h (by injection hh))
  | .ok _, .error _ => isFalse (fun hh => Except.noConfusion hh)
  | .error _, .ok _ => isFalse (fun hh => Except.noConfusion hh)

/-- AES-256-GCM authenticated decryption of `ciphertext ‖ tag`: recompute
the tag over the supplied AAD and ciphertext and compare; any mismatch
(and any input shorter than the 16-byte tag) yields the single
authentication error and no plaintext. -/
def open_ (key iv data aad : List Nat) : Except CryptoError (List Nat) :=
  if data.length < 16 then Except.error CryptoError.authenticationError
  else
    let ct := data.take (data.length - 16)
    let tag := data.drop (data.length - 16)
    let ws := keyExpansion key
    if computeTag ws iv aad ct = tag then Except.ok (gctr ws iv ct)
    else Except.error CryptoError.authenticationError

theorem getD_map_range (f : Nat → Nat) (n i : Nat) (h : i < n) :
    ((List.range n).map f).getD i 0 = f i := by
  rw [List.getD_eq_getElem?_getD, List.getElem?_map, List.getElem?_range h]
  rfl

theorem gctr_length (ws iv d : List Nat) : (gctr ws iv d).length = d.length := by
  simp [gctr]

theorem computeTag_length (ws iv aad ct : List Nat) :
    (computeTag ws iv aad ct).length = 16 := by
  simp [computeTag]

theorem gctr_getD (ws iv d : List Nat) (i : Nat) (h : i < d.length) :
    (gctr ws iv d).getD i 0 = d.getD i 0 ^^^ ksByte ws iv i :=
  getD_map_range _ _ _ h

/-- Applying the CTR keystream twice restores the data. -/
theorem gctr_involutive (ws iv p : List Nat) : gctr ws iv (gctr ws iv p) = p := by
  have hlen : (gctr ws iv (gctr ws iv p)).length = p.length := by
    rw [gctr_length, gctr_length]
  apply List.ext_getElem hlen
  intro i h1 h2
  have h3 : i < (gctr ws iv p).length := by rw [gctr_length]; exact h2
  rw [← List.getD_eq_getElem _ 0 h1, ← List.getD_eq_getElem _ 0 h2,
    gctr_getD _ _ _ _ h3, gctr_getD _ _ _ _ h2, Nat.xor_cancel_right]

/-- AES-GCM roundtrip at the byte level: `open_` after `seal_` under the
same key, nonce and AAD recovers the plaintext. -/
theorem open_seal_roundtrip (key iv p aad : List Nat) :
    open_ key iv (seal_ key iv p aad) aad = Except.ok p := by
  have hct : (gctr (keyExpansion key) iv p).length = p.length := gctr_length _ _ _
  have hdata :
      (gctr (keyExpansion key) iv p ++
        computeTag (keyExpansion key) iv aad (gctr (keyExpansion key) iv p)).length =
        p.length + 16 := by
    rw [List.length_append, hct, computeTag_length]
  simp only [open_, seal_]
  rw [if_neg (by omega), hdata, Nat.add_sub_cancel, List.take_left' hct,
    List.drop_left' hct, if_pos rfl, gctr_involutive]

/-! Byte-range invariants: every byte the cipher produces is `< 256`. -/

theorem xor8_lt {a b : Nat} (ha : a < 256) (hb : b < 256) : a ^^^ b < 256 :=
  Nat.xor_lt_two_pow (n := 8) ha hb

theorem getD_zero_lt {l : List Nat} (h : ∀ x ∈ l, x < 256) (i : Nat) :
    l.getD i 0 < 256 := by
  rw [List.getD_eq_getElem?_getD]
  cases hx : l[i]? with
  | none => decide
  | some x => exact h x (List.getElem?_mem hx)

theorem xtime_lt {a : Nat} (ha : a < 256) : xtime a < 256 := by
  unfold xtime
  apply xor8_lt (Nat.mod_lt _ (by norm_num))
  split <;> norm_num

theorem gf8MulAux_lt :
    ∀ (i a b acc : Nat), a < 256 → acc < 256 → gf8MulAux i a b acc < 256 := by
  intro i
  induction i with
  | zero => intro a b acc _ h; exact h
  | succ i ih =>
    intro a b acc ha hacc
    apply ih _ _ _ (xtime_lt ha)
    split
    · exact xor8_lt hacc ha
    · exact hacc

theorem gf8Mul_lt {a : Nat} (b : Nat) (ha : a < 256) : gf8Mul a b < 256 :=
  gf8MulAux_lt 8 a b 0 ha (by norm_num)

theorem gf8PowAux_lt :
    ∀ (fuel a n : Nat), a < 256 → gf8PowAux fuel a n < 256 := by
  intro fuel
  induction fuel with
  | zero => intro a n _; norm_num [gf8PowAux]
  | succ fuel ih =>
    intro a n ha
    match n with
    | 0 => norm_num [gf8PowAux]
    | n + 1 =>
      simp only [gf8PowAux]
      have hh := ih (gf8Mul a a) ((n + 1) / 2) (gf8Mul_lt _ ha)
      split
      · exact gf8Mul_lt _ hh
      · exact hh

theorem rotl8_lt (x n : Nat) : rotl8 x n < 256 := Nat.mod_lt _ (by norm_num)

theorem sbox_lt (b : Nat) : sbox b < 256 := Nat.mod_lt _ (by norm_num)

theorem wordBytes_lt (w : Nat) : ∀ x ∈ wordBytes w, x < 256 := by
  intro x hx
  simp only [wordBytes, List.mem_cons, List.not_mem_nil, or_false] at hx
  rcases hx with h | h | h | h <;> subst h <;> exact Nat.mod_lt _ (by norm_num)

theorem roundKeyBytes_lt (ws : List Nat) (r : Nat) :
    ∀ x ∈ roundKeyBytes ws r, x < 256 := by
  intro x hx
  simp only [roundKeyBytes, List.mem_flatten, List.mem_map] at hx
  obtain ⟨l, ⟨j, _, rfl⟩, hxl⟩ := hx
  exact wordBytes_lt _ x hxl

theorem subBytes_lt {st : List Nat} (h : ∀ x ∈ st, x < 256) :
    ∀ x ∈ subBytes st, x < 256 := by
  intro x hx
  obtain ⟨y, hy, rfl⟩ := List.mem_map.mp hx
  exact sbox_lt y

theorem shiftRows_lt {st : List Nat} (h : ∀ x ∈ st, x < 256) :
    ∀ x ∈ shiftRows st, x < 256 := by
  intro x hx
  obtain ⟨i, _, rfl⟩ := List.mem_map.mp hx
  exact getD_zero_lt h _

theorem mixColumn_lt {a0 a1 a2 a3 : Nat} (h0 : a0 < 256) (h1 : a1 < 256)
    (h2 : a2 < 256) (h3 : a3 < 256) : ∀ x ∈ mixColumn a0 a1 a2 a3, x < 256 := by
  intro x hx
  simp only [mixColumn, List.mem_cons, List.not_mem_nil, or_false] at hx
  rcases hx with h | h | h | h <;> subst h
  · exact xor8_lt (xor8_lt (xor8_lt (gf8Mul_lt _ (by norm_num)) (gf8Mul_lt _ (by norm_num))) h2) h3
  · exact xor8_lt (xor8_lt (xor8_lt h0 (gf8Mul_lt _ (by norm_num))) (gf8Mul_lt _ (by norm_num))) h3
  · exact xor8_lt (xor8_lt (xor8_lt h0 h1) (gf8Mul_lt _ (by norm_num))) (gf8Mul_lt _ (by norm_num))
  · exact xor8_lt (xor8_lt (xor8_lt (gf8Mul_lt _ (by norm_num)) h1) h2) (gf8Mul_lt _ (by norm_num))

theorem mixColumns_lt {st : List Nat} (h : ∀ x ∈ st, x < 256) :
    ∀ x ∈ mixColumns st, x < 256 := by
  intro x hx
  simp only [mixColumns, List.mem_flatten, List.mem_map] at hx
  obtain ⟨l, ⟨c, _, rfl⟩, hxl⟩ := hx
  exact mixColumn_lt (getD_zero_lt h _) (getD_zero_lt h _) (getD_zero_lt h _)
    (getD_zero_lt h _) x hxl

theorem zipWith_xor_lt {a b : List Nat} (ha : ∀ x ∈ a, x < 256)
    (hb : ∀ x ∈ b, x < 256) : ∀ x ∈ List.zipWith (· ^^^ ·) a b, x < 256 := by
  induction a generalizing b with
  | nil => intro x hx; simp at hx
  | cons y a ih =>
    intro x hx
    match b with
    | [] => simp at hx
    | z :: b =>
      simp only [List.zipWith_cons_cons, List.mem_cons] at hx
      rcases hx with h | h
      · subst h
        exact xor8_lt (ha y (by simp)) (hb z (by simp))
      · exact ih (fun u hu => ha u (by simp [hu])) (fun u hu => hb u (by simp [hu])) x h

theorem addRoundKey_lt {st rk : List Nat} (h : ∀ x ∈ st, x < 256)
    (hk : ∀ x ∈ rk, x < 256) : ∀ x ∈ addRoundKey st rk, x < 256 :=
  zipWith_xor_lt h hk

theorem encryptBlock_lt {ws block : List Nat} (h : ∀ x ∈ block, x < 256) :
    ∀ x ∈ encryptBlock ws block, x < 256 := by
  unfold encryptBlock
  apply addRoundKey_lt _ (roundKeyBytes_lt ws 14)
  apply shiftRows_lt
  apply subBytes_lt
  have hmid : ∀ (xs : List Nat) (st : List Nat), (∀ x ∈ st, x < 256) →
      ∀ x ∈ xs.foldl (fun st r =>
        addRoundKey (mixColumns (shiftRows (subBytes st))) (roundKeyBytes ws (r + 1))) st,
        x < 256 := by
    intro xs
    induction xs with
    | nil => intro st hst; exact hst
    | cons r xs ih =>
      intro st hst
      simp only [List.foldl_cons]
      exact ih _ (addRoundKey_lt (mixColumns_lt (shiftRows_lt (subBytes_lt hst)))
        (roundKeyBytes_lt ws (r + 1)))
  exact hmid _ _ (addRoundKey_lt h (roundKeyBytes_lt ws 0))

theorem mem_beBytesAux_lt : ∀ (f n : Nat), ∀ x ∈ beBytesAux f n, x < 256 := by
  intro f
  induction f with
  | zero => intro n x hx; simp [beBytesAux] at hx
  | succ f ih =>
    intro n x hx
    match n with
    | 0 => simp [beBytesAux] at hx
    | n + 1 =>
      simp only [beBytesAux, List.mem_append, List.mem_cons, List.not_mem_nil,
        or_false] at hx
      rcases hx with h | h
      · exact ih _ x h
      · subst h; exact Nat.mod_lt _ (by norm_num)

theorem mem_beBytesPad_lt (w n : Nat) : ∀ x ∈ beBytesPad w n, x < 256 := by
  intro x hx
  simp only [beBytesPad, List.mem_append] at hx
  rcases hx with h | h
  · rw [List.eq_of_mem_replicate h]; norm_num
  · exact mem_beBytesAux_lt n n x h

theorem ctrBlock_lt {iv : List Nat} (h : ∀ x ∈ iv, x < 256) (cnt : Nat) :
    ∀ x ∈ ctrBlock iv cnt, x < 256 := by
  intro x hx
  rcases List.mem_append.mp hx with hm | hm
  · exact h x hm
  · exact mem_beBytesPad_lt _ _ x hm

theorem ksByte_lt {ws iv : List Nat} (h : ∀ x ∈ iv, x < 256) (i : Nat) :
    ksByte ws iv i < 256 :=
  getD_zero_lt (encryptBlock_lt (ctrBlock_lt h _)) _

theorem gctr_lt {ws iv d : List Nat} (hd : ∀ x ∈ d, x < 256)
    (hiv : ∀ x ∈ iv, x < 256) : ∀ x ∈ gctr ws iv d, x < 256 := by
  intro x hx
  obtain ⟨i, _, rfl⟩ := List.mem_map.mp hx
  exact xor8_lt (getD_zero_lt hd _) (ksByte_lt hiv _)

theorem computeTag_lt {ws iv aad ct : List Nat} (hiv : ∀ x ∈ iv, x < 256) :
    ∀ x ∈ computeTag ws iv aad ct, x < 256 := by
  intro x hx
  obtain ⟨i, _, rfl⟩ := List.mem_map.mp hx
  exact xor8_lt (Nat.mod_lt _ (by norm_num))
    (getD_zero_lt (encryptBlock_lt (ctrBlock_lt hiv _)) _)

theorem seal_lt {key iv p aad : List Nat} (hp : ∀ x ∈ p, x < 256)
    (hiv : ∀ x ∈ iv, x < 256) : ∀ x ∈ seal_ key iv p aad, x < 256 := by
  intro x hx
  rcases List.mem_append.mp hx with hm | hm
  · exact gctr_lt hp hiv x hm
  · exact computeTag_lt hiv x hm

end AesGcm

namespace KeyDerivation

theorem parseIntHex2_lt (c1 c2 : Char) : parseIntHex2 c1 c2 < 256 := by
  unfold parseIntHex2
  split
  · next a b h1 h2 => have := hexDigitVal_lt h1; have := hexDigitVal_lt h2; omega
  · next a h1 _ => have := hexDigitVal_lt h1; omega
  · norm_num

theorem pairsToBytesJS_lt : ∀ s : List Char, ∀ x ∈ pairsToBytesJS s, x < 256
  | [] => by intro x hx; simp [pairsToBytesJS] at hx
  | [c] => by intro x hx; simp [pairsToBytesJS] at hx
  | c1 :: c2 :: rest => by
      intro x hx
      simp only [pairsToBytesJS, List.mem_cons] at hx
      rcases hx with h | h
      · subst h; exact parseIntHex2_lt c1 c2
      · exact pairsToBytesJS_lt rest x h

theorem pairsToBytesJS_length :
    ∀ s : List Char, (pairsToBytesJS s).length = s.length / 2
  | [] => rfl
  | [c] => by
      have h1 : pairsToBytesJS [c] = [] := rfl
      rw [h1]
      simp
  | c1 :: c2 :: rest => by
      simp only [pairsToBytesJS, List.length_cons]
      rw [pairsToBytesJS_length rest]
      omega

theorem hexToBytesJS_cons0x (s : List Char) (h : s.length % 2 = 0) :
    hexToBytes ('0' :: 'x' :: s) = some (pairsToBytesJS s) := by
  unfold hexToBytes
  simp only [startsWith0x, List.drop_succ_cons, List.drop_zero, if_pos]
  rw [if_pos h]

/-- The 16 lower-case hex digit characters. -/
def lowerHexDigits : List Char := "0123456789abcdef".data

theorem lowerHex_spec : ∀ c ∈ lowerHexDigits,
    (hexDigitVal c).isSome = true ∧ hexChar ((hexDigitVal c).getD 0) = c := by decide

theorem byteToHexChars_eq :
    ∀ b < 256, byteToHexChars b = [hexChar (b / 16), hexChar (b % 16)] := by decide

theorem hexDigitVal_hexChar : ∀ v < 16, hexDigitVal (hexChar v) = some v := by decide

/-- Printing bytes `< 256` to hex digits and parsing them back is the
identity. -/
theorem pairsJS_of_byteHex (l : List Nat) (h : ∀ x ∈ l, x < 256) :
    pairsToBytesJS ((l.map byteToHexChars).flatten) = l := by
  induction l with
  | nil => rfl
  | cons b l ih =>
    have hb := h b (by simp)
    simp only [List.map_cons, List.flatten_cons, byteToHexChars_eq b hb,
      List.cons_append, List.nil_append]
    show pairsToBytesJS (hexChar (b / 16) :: hexChar (b % 16) :: _) = _
    simp only [pairsToBytesJS, parseIntHex2,
      hexDigitVal_hexChar (b / 16) (by omega), hexDigitVal_hexChar (b % 16) (by omega)]
    rw [ih (fun x hx => h x (by simp [hx]))]
    congr 1
    omega

theorem byteHex_flatten_length (l : List Nat) (h : ∀ x ∈ l, x < 256) :
    ((l.map byteToHexChars).flatten).length = 2 * l.length := by
  induction l with
  | nil => rfl
  | cons b l ih =>
    simp only [List.map_cons, List.flatten_cons, List.length_append,
      byteToHexChars_eq b (h b (by simp)), List.length_cons, List.length_nil]
    rw [ih (fun x hx => h x (by simp [hx]))]
    ring

/-- Parsing the hex print of a byte string recovers it. -/
theorem hexToBytes_bytesToHex (l : List Nat) (h : ∀ x ∈ l, x < 256) :
    hexToBytes (bytesToHex l) = some l := by
  show hexToBytes ('0' :: 'x' :: (l.map byteToHexChars).flatten) = some l
  rw [hexToBytesJS_cons0x _ (by rw [byteHex_flatten_length l h]; omega),
    pairsJS_of_byteHex l h]

/-- Parsing lower-case hex digits and printing the bytes back is the
identity. -/
theorem byteHex_of_pairsJS :
    ∀ pd : List Char, pd.length % 2 = 0 → (∀ c ∈ pd, c ∈ lowerHexDigits) →
      ((pairsToBytesJS pd).map byteToHexChars).flatten = pd
  | [] => fun _ _ => rfl
  | [c] => by intro h _; simp at h
  | c1 :: c2 :: rest => by
      intro heven hmem
      obtain ⟨hs1, hc1⟩ := lowerHex_spec c1 (hmem c1 (by simp))
      obtain ⟨hs2, hc2⟩ := lowerHex_spec c2 (by exact hmem c2 (by simp))
      obtain ⟨v1, hv1⟩ := Option.isSome_iff_exists.mp hs1
      obtain ⟨v2, hv2⟩ := Option.isSome_iff_exists.mp hs2
      have hl1 := hexDigitVal_lt hv1
      have hl2 := hexDigitVal_lt hv2
      rw [hv1] at hc1
      rw [hv2] at hc2
      simp only [Option.getD_some] at hc1 hc2
      simp only [pairsToBytesJS, parseIntHex2, hv1, hv2, List.map_cons,
        List.flatten_cons]
      rw [byteToHexChars_eq (16 * v1 + v2) (by omega)]
      rw [show (16 * v1 + v2) / 16 = v1 by omega, show (16 * v1 + v2) % 16 = v2 by omega,
        hc1, hc2]
      rw [byteHex_of_pairsJS rest (by simp at heven; omega)
        (fun c hc => hmem c (by simp [hc]))]
      rfl

end KeyDerivation

namespace Encryption

/-- `EncryptedPayload` from encryption.ts. -/
structure EncryptedPayload where
  ciphertext : List Char
  iv : List Char
deriving DecidableEq

/-- The byte-level effect of `importAesKey`: WebCrypto `importKey` with
`{name: "AES-GCM", length: 256}` rejects key material that is not exactly
32 bytes, and the local `hexToBytes` throws on an odd digit count. -/
def importAesKeyBytes (keyHex : List Char) : Option (List Nat) :=
  match KeyDerivation.hexToBytes keyHex with
  | some kb => if kb.length = 32 then some kb else none
  | none => none

/-- `encrypt` from encryption.ts: import the key, draw a random 12-byte IV
(passed explicitly here to make the randomness an input), parse the
plaintext hex, AES-256-GCM-encrypt with no additional data (WebCrypto's
empty-AAD default), and hex-print ciphertext ‖ tag and IV. -/
def encrypt (keyHex : List Char) (iv : List Nat) (plaintext : List Char) :
    Option EncryptedPayload :=
  match importAesKeyBytes keyHex, KeyDerivation.hexToBytes plaintext with
  | some key, some data =>
      some ⟨KeyDerivation.bytesToHex (AesGcm.seal_ key iv data []),
        KeyDerivation.bytesToHex iv⟩
  | _, _ => none

/-- `decrypt` from encryption.ts: import the key, parse IV and ciphertext,
AES-256-GCM-decrypt (`none` when WebCrypto throws its authentication
`OperationError`), and hex-print the plaintext. -/
def decrypt (keyHex : List Char) (payload : EncryptedPayload) : Option (List Char) :=
  match importAesKeyBytes keyHex, KeyDerivation.hexToBytes payload.iv,
      KeyDerivation.hexToBytes payload.ciphertext with
  | some key, some iv, some ct =>
      match AesGcm.open_ key iv ct [] with
      | Except.ok pt => some (KeyDerivation.bytesToHex pt)
      | Except.error _ => none
  | _, _, _ => none

/-- `verifyRoundtrip` from encryption.ts: encrypt, decrypt, and compare
the decrypted hex string with the original (JS `===`). -/
def verifyRoundtrip (iv : List Nat) (keyHex original : List Char) : Option Bool :=
  match encrypt keyHex iv original with
  | some encrypted =>
      match decrypt keyHex encrypted with
      | some decrypted => some (decrypted == original)
      | none => none
  | none => none

end Encryption

/-- C2 (amended): AEAD roundtrip. At the byte level, `open` after `seal`
under the same 32-byte key, 12-byte nonce, and AAD returns the original
plaintext for every plaintext and AAD; `verifyRoundtrip` returns `true`
for every 32-byte key and every even-length *lower-case* hex plaintext
(the string comparison against the lower-case reprint fails for upper-case
input). -/
theorem encrypt_decrypt_roundtrip :
    (∀ key iv p aad : List Nat, key.length = 32 → iv.length = 12 →
      AesGcm.open_ key iv (AesGcm.seal_ key iv p aad) aad = Except.ok p) ∧
    (∀ (iv : List Nat) (kd pd : List Char),
      iv.length = 12 → (∀ b ∈ iv, b < 256) → kd.length = 64 →
      pd.length % 2 = 0 → (∀ c ∈ pd, c ∈ KeyDerivation.lowerHexDigits) →
      Encryption.verifyRoundtrip iv ('0' :: 'x' :: kd) ('0' :: 'x' :: pd) =
        some true) := by
  constructor
  · intro key iv p aad _ _
    exact AesGcm.open_seal_roundtrip key iv p aad
  · intro iv kd pd hiv hivb hkd heven hmem
    have hkparse : KeyDerivation.hexToBytes ('0' :: 'x' :: kd) =
        some (KeyDerivation.pairsToBytesJS kd) :=
      KeyDerivation.hexToBytesJS_cons0x kd (by omega)
    have hklen : (KeyDerivation.pairsToBytesJS kd).length = 32 := by
      rw [KeyDerivation.pairsToBytesJS_length, hkd]
    have hkb : Encryption.importAesKeyBytes ('0' :: 'x' :: kd) =
        some (KeyDerivation.pairsToBytesJS kd) := by
      simp [Encryption.importAesKeyBytes, hkparse, hklen]
    have hpparse : KeyDerivation.hexToBytes ('0' :: 'x' :: pd) =
        some (KeyDerivation.pairsToBytesJS pd) :=
      KeyDerivation.hexToBytesJS_cons0x pd heven
    have hpblt := KeyDerivation.pairsToBytesJS_lt pd
    have hsealt : ∀ x ∈ AesGcm.seal_ (KeyDerivation.pairsToBytesJS kd) iv
        (KeyDerivation.pairsToBytesJS pd) [], x < 256 :=
      AesGcm.seal_lt hpblt hivb
    have henc : Encryption.encrypt ('0' :: 'x' :: kd) iv ('0' :: 'x' :: pd) =
        some ⟨KeyDerivation.bytesToHex (AesGcm.seal_ (KeyDerivation.pairsToBytesJS kd)
            iv (KeyDerivation.pairsToBytesJS pd) []),
          KeyDerivation.bytesToHex iv⟩ := by
      unfold Encryption.encrypt
      rw [hkb, hpparse]
    have hdec : Encryption.decrypt ('0' :: 'x' :: kd)
        ⟨KeyDerivation.bytesToHex (AesGcm.seal_ (KeyDerivation.pairsToBytesJS kd)
            iv (KeyDerivation.pairsToBytesJS pd) []),
          KeyDerivation.bytesToHex iv⟩ =
        some (KeyDerivation.bytesToHex (KeyDerivation.pairsToBytesJS pd)) := by
      unfold Encryption.decrypt
      rw [hkb]
      simp only [KeyDerivation.hexToBytes_bytesToHex iv hivb,
        KeyDerivation.hexToBytes_bytesToHex _ hsealt, AesGcm.open_seal_roundtrip]
    have hprint : KeyDerivation.bytesToHex (KeyDerivation.pairsToBytesJS pd) =
        '0' :: 'x' :: pd := by
      show '0' :: 'x' ::
        ((KeyDerivation.pairsToBytesJS pd).map KeyDerivation.byteToHexChars).flatten = _
      rw [KeyDerivation.byteHex_of_pairsJS pd heven hmem]
    unfold Encryption.verifyRoundtrip
    rw [henc]
    simp only [hdec, hprint, beq_self_eq_true]

/-- Witness for the amended C2 at a concrete all-zero key and IV and the
plaintext `0xaa`. -/
theorem encrypt_decrypt_roundtrip_witness :
    Encryption.verifyRoundtrip (List.replicate 12 0)
      ('0' :: 'x' :: List.replicate 64 '0') ('0' :: 'x' :: ['a', 'a']) = some true :=
  encrypt_decrypt_roundtrip.2 (List.replicate 12 0) (List.replicate 64 '0')
    ['a', 'a'] (by decide) (by decide) (by decide) (by decide) (by decide)

/-- Counterexample to C2 as stated: for the upper-case hex plaintext
`0xAA` (and a valid 32-byte key), `verifyRoundtrip` returns `false`, since
the decrypted bytes reprint as lower-case `0xaa` and the JS `===`
comparison fails. -/
theorem verifyRoundtrip_uppercase_counterexample :
    Encryption.verifyRoundtrip (List.replicate 12 0)
      "0x0000000000000000000000000000000000000000000000000000000000000000".data
      "0xAA".data = some false := by decide

namespace TransactionDecryption

/-- Model of seismic-viem's `generateAesKey` (third-party library): the
same ECDH + HKDF-SHA256 (`"aes-gcm key"`, no salt) scheme the source
comments document, with hex parsing that accepts an optional `0x` prefix
(the TEE key constant is passed without one). The exact byte source of the
HKDF input differed between source iterations and is irrelevant to the
theorems below. -/
def generateAesKey (privateKey networkPublicKey : List Char) : Option (List Nat) :=
  let parse := fun (s : List Char) =>
    let t := if startsWith0x s then s.drop 2 else s
    if t.length % 2 = 0 ∧ t.all isHexDigit then some (Viem.pairsToBytes t) else none
  match parse privateKey, parse networkPublicKey with
  | some priv, some pub =>
      (Secp256k1.getSharedSecret priv pub).map
        (fun shared => Hkdf.hkdfSha256 (shared.drop 1) aesGcmKeyInfo)
  | _, _ => none

/-- Model of `AesGcmCrypto`'s nonce handling (third-party library): the
hex nonce is taken as a big-endian integer in a 12-byte IV. -/
def nonceBytes12 (s : List Char) : List Nat :=
  beBytesPad 12 (parseHexNat (if startsWith0x s then s.drop 2 else s))

/-- `decryptTransactionInput` from transaction-decryption.ts: derive the
AES key, build the AAD, and run one AES-256-GCM decryption of `tx.input`
with `tx.encryptionNonce` as IV — no retry, and the authentication error
of `open` is returned as-is. -/
def decryptTransactionInput (encryptionSk : List Char) (tx : Tx) :
    Except AesGcm.CryptoError (List Nat) :=
  match generateAesKey encryptionSk NETWORK_TEE_PUBLIC_KEY with
  | none => Except.error AesGcm.CryptoError.keyAgreementFailure
  | some aesKey =>
      match constructAAD tx, Viem.hexToBytes tx.input with
      | some aad, some ct =>
          AesGcm.open_ aesKey (nonceBytes12 (ensureHexPrefixed tx.encryptionNonce)) ct aad
      | _, _ => Except.error AesGcm.CryptoError.malformedInput

/-- Flip the lowest bit of the first byte. -/
def tamperFirstByte : List Nat → List Nat
  | [] => []
  | x :: r => (x ^^^ 1) :: r

/-- C3: AEAD open fails closed — every failure of `open` is the one
`authenticationError` value, carrying no plaintext; a success returns the
full CTR decryption of the ciphertext (never a partial plaintext); the
transaction decryptor calls `open` exactly once on its derived key, nonce,
AAD and ciphertext and returns its result unchanged; and concretely, a
ciphertext bit-flip and an AAD mismatch each produce that same
`authenticationError`. -/
theorem decryptTransactionInput_fail_closed :
    (∀ (key iv data aad : List Nat) (e : AesGcm.CryptoError),
      AesGcm.open_ key iv data aad = Except.error e →
      e = AesGcm.CryptoError.authenticationError) ∧
    (∀ key iv data aad p : List Nat, AesGcm.open_ key iv data aad = Except.ok p →
      16 ≤ data.length ∧
        p = AesGcm.gctr (AesGcm.keyExpansion key) iv (data.take (data.length - 16)) ∧
        p.length = data.length - 16) ∧
    (∀ (sk : List Char) (tx : Tx) (aesKey aad ct : List Nat),
      generateAesKey sk NETWORK_TEE_PUBLIC_KEY = some aesKey →
      constructAAD tx = some aad → Viem.hexToBytes tx.input = some ct →
      decryptTransactionInput sk tx =
        AesGcm.open_ aesKey (nonceBytes12 (ensureHexPrefixed tx.encryptionNonce)) ct aad) ∧
    (AesGcm.open_ (List.replicate 32 0) (List.replicate 12 0)
        (tamperFirstByte (AesGcm.seal_ (List.replicate 32 0) (List.replicate 12 0)
          [0xab] [])) [] =
      Except.error AesGcm.CryptoError.authenticationError ∧
    AesGcm.open_ (List.replicate 32 0) (List.replicate 12 0)
        (AesGcm.seal_ (List.replicate 32 0) (List.replicate 12 0) [0xab] [7]) [8] =
      Except.error AesGcm.CryptoError.authenticationError) := by
  refine ⟨?_, ?_, ?_, by decide, by decide⟩
  · intro key iv data aad e h
    simp only [AesGcm.open_] at h
    split at h
    · injection h with h
      exact h.symm
    · split at h
      · exact absurd h (by simp)
      · injection h with h
        exact h.symm
  · intro key iv data aad p h
    simp only [AesGcm.open_] at h
    split at h
    · exact absurd h (by simp)
    · next hlen =>
      split at h
      · injection h with h
        subst h
        refine ⟨by omega, rfl, ?_⟩
        rw [AesGcm.gctr_length, List.length_take]
        omega
      · exact absurd h (by simp)
  · intro sk tx aesKey aad ct h1 h2 h3
    unfold decryptTransactionInput
    rw [h1, h2, h3]

/-- Witness for C3's success conjunct: a sealed one-byte message opens to
the full one-byte plaintext. -/
theorem decryptTransactionInput_fail_closed_witness :
    16 ≤ (AesGcm.seal_ (List.replicate 32 0) (List.replicate 12 0) [0xab] []).length ∧
    ([0xab] : List Nat) =
      AesGcm.gctr (AesGcm.keyExpansion (List.replicate 32 0)) (List.replicate 12 0)
        ((AesGcm.seal_ (List.replicate 32 0) (List.replicate 12 0) [0xab] []).take
          ((AesGcm.seal_ (List.replicate 32 0) (List.replicate 12 0) [0xab] []).length -
            16)) ∧
    ([0xab] : List Nat).length =
      (AesGcm.seal_ (List.replicate 32 0) (List.replicate 12 0) [0xab] []).length - 16 :=
  decryptTransactionInput_fail_closed.2.1 (List.replicate 32 0) (List.replicate 12 0)
    (AesGcm.seal_ (List.replicate 32 0) (List.replicate 12 0) [0xab] []) [] [0xab]
    (AesGcm.open_seal_roundtrip _ _ _ _)

end TransactionDecryption

namespace Keccak

/-! Keccak-256 per the Keccak reference (the legacy `0x01` padding used by
Ethereum, not SHA3's `0x06`), for viem's `encodeFunctionData` selector
computation. Lanes are 64-bit values at index `x + 5y`. -/

/-- 64-bit left rotation. -/
def rotl64 (x n : Nat) : Nat := ((x <<< n) ||| (x >>> (64 - n))) % 2 ^ 64

/-- Bitwise complement within 64 bits. -/
def comp64 (x : Nat) : Nat := x ^^^ (2 ^ 64 - 1)

/-- The 24 ι round constants (generated by the standard degree-8 LFSR:
`0x1, 0x8082, 0x800000000000808a, …, 0x8000000080008008`, written in
decimal). -/
def RC : List Nat :=
  [1, 32898, 9223372036854808714,
   9223372039002292224, 32907, 2147483649,
   9223372039002292353, 9223372036854808585, 138,
   136, 2147516425, 2147483658,
   2147516555, 9223372036854775947, 9223372036854808713,
   9223372036854808579, 9223372036854808578, 9223372036854775936,
   32778, 9223372039002259466, 9223372039002292353,
   9223372036854808704, 2147483649, 9223372039002292232]

/-- The ρ rotation offsets at index `x + 5y`, packed 8 bits per lane;
`rhoOff_eq_gen` below checks them against the FIPS 202 generating
iteration. -/
def rhoPacked : Nat := 0xe383d021208150f2d2927192b0a031437062c241b1c3e0100

def rhoOff (i : Nat) : Nat := rhoPacked >>> (8 * i) % 256

/-- The FIPS 202 §3.2.2 offset generation: starting from `(1, 0)`, lane
`(x, y)` gets `(t+1)(t+2)/2 mod 64` and the walk moves to
`(y, (2x+3y) mod 5)`. -/
def rhoOffsetsGen : List Nat :=
  let upd := fun (l : List Nat) (j v : Nat) =>
    (List.range 25).map (fun i => if i = j then v else l.getD i 0)
  let step := fun (acc : List Nat × Nat × Nat) (t : Nat) =>
    match acc with
    | (l, x, y) => (upd l (x + 5 * y) ((t + 1) * (t + 2) / 2 % 64), y, (2 * x + 3 * y) % 5)
  ((List.range 24).foldl step (List.replicate 25 0, 1, 0)).1

/-- The packed offsets agree with the generated table. -/
theorem rhoOff_eq_gen : ∀ i < 25, rhoOff i = rhoOffsetsGen.getD i 0 := by decide

/-- θ step. -/
def thetaStep (a : List Nat) : List Nat :=
  let c := (List.range 5).map (fun x =>
    a.getD x 0 ^^^ a.getD (x + 5) 0 ^^^ a.getD (x + 10) 0 ^^^ a.getD (x + 15) 0 ^^^
      a.getD (x + 20) 0)
  let d := (List.range 5).map (fun x =>
    c.getD ((x + 4) % 5) 0 ^^^ rotl64 (c.getD ((x + 1) % 5) 0) 1)
  (List.range 25).map (fun i => a.getD i 0 ^^^ d.getD (i % 5) 0)

/-- ρ and π combined: output lane `(x, y)` is the rotated input lane
`((x + 3y) % 5, x)`. -/
def piRhoAt (a : List Nat) (i : Nat) : Nat :=
  let x := i % 5
  let y := i / 5
  let j := (x + 3 * y) % 5 + 5 * x
  rotl64 (a.getD j 0) (rhoOff j)

/-- χ step at one lane. -/
def chiAt (b : List Nat) (i : Nat) : Nat :=
  let x := i % 5
  let y := i / 5
  b.getD i 0 ^^^ (comp64 (b.getD ((x + 1) % 5 + 5 * y) 0) &&& b.getD ((x + 2) % 5 + 5 * y) 0)

def keccakRound (rcI : Nat) (a : List Nat) : List Nat :=
  let a := thetaStep a
  let b := (List.range 25).map (piRhoAt a)
  let a := (List.range 25).map (chiAt b)
  (List.range 25).map (fun i => if i = 0 then a.getD 0 0 ^^^ rcI else a.getD i 0)

def keccakF (a : List Nat) : List Nat :=
  (List.range 24).foldl (fun st i => keccakRound (RC.getD i 0) st) a

/-- Little-endian value of a byte string. -/
def leNat (l : List Nat) : Nat := l.foldr (fun b acc => acc * 256 + b) 0

/-- The 8 little-endian bytes of a 64-bit lane. -/
def leBytes8 (w : Nat) : List Nat := (List.range 8).map (fun j => w >>> (8 * j) % 256)

/-- Keccak multi-rate padding for rate 136 with the legacy `0x01` domain
byte. -/
def padKeccak (msg : List Nat) : List Nat :=
  let q := 136 - msg.length % 136
  if q = 1 then msg ++ [0x81]
  else msg ++ 0x01 :: (List.replicate (q - 2) 0 ++ [0x80])

/-- XOR one 136-byte block into the first 17 lanes and permute. -/
def absorbBlock (st block : List Nat) : List Nat :=
  keccakF ((List.range 25).map (fun i =>
    if i < 17 then st.getD i 0 ^^^ leNat ((block.drop (8 * i)).take 8) else st.getD i 0))

/-- Split into 136-byte blocks (fuel-driven). -/
def chunks136Aux : Nat → List Nat → List (List Nat)
  | 0, _ => []
  | _ + 1, [] => []
  | f + 1, x :: rest => ((x :: rest).take 136) :: chunks136Aux f ((x :: rest).drop 136)

def chunks136 (l : List Nat) : List (List Nat) := chunks136Aux l.length l

/-- Keccak-256 of a byte string: absorb the padded message and squeeze
the first 32 bytes. -/
def keccak256 (msg : List Nat) : List Nat :=
  let st := (chunks136 (padKeccak msg)).foldl absorbBlock (List.replicate 25 0)
  ((List.range 4).map (fun i => leBytes8 (st.getD i 0))).flatten

end Keccak

namespace Viem

/-- viem `bytesToHex`: `0x` plus two lower-case digits per byte. -/
def bytesToHex (bytes : List Nat) : List Char :=
  '0' :: 'x' :: (bytes.map KeyDerivation.byteToHexChars).flatten

end Viem

namespace Transaction

/-- The fixed plaintext transfer ABI item of transaction.ts:
`transfer(address to, uint256 amount)`. -/
def transferSignature : List Char := "transfer(address,uint256)".data

/-- The selector viem's `encodeFunctionData` computes for it: the first 4
bytes of the Keccak-256 hash of the signature. -/
def transferSelector : List Nat :=
  (Keccak.keccak256 (transferSignature.map Char.toNat)).take 4

/-- `buildTransferCalldata` from transaction.ts: viem `encodeFunctionData`
with the plaintext ABI — the 4-byte Keccak selector, the address
left-padded to 32 bytes, and the 32-byte big-endian amount, hex-printed;
viem rejects a malformed address or an out-of-range uint256 (`none`). -/
def buildTransferCalldata (to_ : List Char) (amount : Nat) : Option (List Char) :=
  if startsWith0x to_ = true ∧ (to_.drop 2).length = 40 ∧
      (to_.drop 2).all isHexDigit = true ∧ amount < 2 ^ 256 then
    some (Viem.bytesToHex (transferSelector ++
      (List.replicate 12 0 ++ Viem.pairsToBytes (to_.drop 2)) ++ beBytesPad 32 amount))
  else none

end Transaction

namespace Calldata

/-- The hardcoded selector of calldata.ts, documented there as the
selector for `transfer(address,suint256)`. -/
def TRANSFER_SELECTOR : List Char := "0xb10c99b5".data

/-- JS `s.padStart(64, "0")`. -/
def padStart64 (s : List Char) : List Char := List.replicate (64 - s.length) '0' ++ s

/-- `buildTransferCalldata` from calldata.ts: the hardcoded selector, the
address hex digits padded to 64, and `amount.toString(16)` padded to 64. -/
def buildTransferCalldata (to_ : List Char) (amount : Nat) : List Char :=
  let addressParam := padStart64 (to_.drop 2)
  let amountParam := padStart64 (natToHexStr amount)
  TRANSFER_SELECTOR ++ addressParam ++ amountParam

end Calldata

theorem natToHexAux_length_le :
    ∀ (fuel n k : Nat) (acc : List Char), n < 16 ^ k → n ≤ fuel →
      (natToHexAux fuel n acc).length ≤ k + acc.length := by
  intro fuel
  induction fuel with
  | zero => intro n k acc _ _; simp [natToHexAux]
  | succ fuel ih =>
    intro n k acc hk hf
    match n with
    | 0 => simp [natToHexAux]
    | n + 1 =>
      match k with
      | 0 => omega
      | k + 1 =>
        have h1 : (n + 1) / 16 < 16 ^ k := by
          apply Nat.div_lt_of_lt_mul
          have : 16 ^ (k + 1) = 16 * 16 ^ k := by ring
          omega
        have h2 : (n + 1) / 16 ≤ fuel := by
          have := Nat.div_lt_self (by omega : 0 < n + 1) (by decide : 1 < 16)
          omega
        have := ih ((n + 1) / 16) k (hexChar ((n + 1) % 16) :: acc) h1 h2
        simp only [natToHexAux, List.length_cons] at this ⊢
        omega

theorem natToHexStr_length_le (n k : Nat) (h : n < 16 ^ k) (hk : 1 ≤ k) :
    (natToHexStr n).length ≤ k := by
  unfold natToHexStr
  split
  · simpa using hk
  · have := natToHexAux_length_le n n k [] h le_rfl
    simpa using this

/-- C8 (amended): the two `buildTransferCalldata` implementations both
produce 68-byte calldata of selector ‖ 32-byte zero-padded recipient ‖
32-byte big-endian amount, but with different literal selectors: the
`encodeFunctionData`-based one in transaction.ts uses the Keccak selector
`0xa9059cbb` of `transfer(address,uint256)`, while calldata.ts uses its
hardcoded `0xb10c99b5`. -/
theorem buildTransferCalldata_encoding :
    (∀ (rest : List Char) (amount : Nat), rest.length = 40 →
      rest.all isHexDigit = true → amount < 2 ^ 256 →
      Transaction.buildTransferCalldata ('0' :: 'x' :: rest) amount =
        some (Viem.bytesToHex (Transaction.transferSelector ++
          (List.replicate 12 0 ++ Viem.pairsToBytes rest) ++ beBytesPad 32 amount)) ∧
      (Transaction.transferSelector ++ (List.replicate 12 0 ++ Viem.pairsToBytes rest) ++
        beBytesPad 32 amount).length = 68) ∧
    Transaction.transferSelector = [0xa9, 0x05, 0x9c, 0xbb] ∧
    (∀ (to_ : List Char) (amount : Nat), amount < 2 ^ 256 →
      Calldata.buildTransferCalldata to_ amount =
        Calldata.TRANSFER_SELECTOR ++ Calldata.padStart64 (to_.drop 2) ++
          Calldata.padStart64 (natToHexStr amount) ∧
      ((to_.drop 2).length = 40 →
        (Calldata.buildTransferCalldata to_ amount).length = 138)) := by
  have hsel : Transaction.transferSelector = [0xa9, 0x05, 0x9c, 0xbb] := by decide
  refine ⟨?_, hsel, ?_⟩
  · intro rest amount hlen hhex hamt
    constructor
    · have hcond : startsWith0x ('0' :: 'x' :: rest) = true ∧
          (('0' :: 'x' :: rest).drop 2).length = 40 ∧
          (('0' :: 'x' :: rest).drop 2).all isHexDigit = true ∧ amount < 2 ^ 256 :=
        ⟨by simp [startsWith0x], by simpa using hlen, by simpa using hhex, hamt⟩
      unfold Transaction.buildTransferCalldata
      rw [if_pos hcond]
      simp
    · have hpad : (beBytesPad 32 amount).length = 32 :=
        beBytesPad_length 32 amount (by
          have : (256 : Nat) ^ 32 = 2 ^ 256 := by norm_num
          omega)
      have hpb : (Viem.pairsToBytes rest).length = 20 := by
        rw [TransactionDecryption.pairsToBytes_length rest, hlen]
      simp only [List.length_append, List.length_replicate, hpad, hpb, hsel]
      rfl
  · intro to_ amount hamt
    constructor
    · rfl
    · intro h40
      have hstr : (natToHexStr amount).length ≤ 64 :=
        natToHexStr_length_le amount 64 (by
          have : (16 : Nat) ^ 64 = 2 ^ 256 := by norm_num
          omega) (by omega)
      simp only [Calldata.buildTransferCalldata, Calldata.padStart64, List.length_append,
        List.length_replicate, h40]
      have : Calldata.TRANSFER_SELECTOR.length = 10 := by decide
      omega

/-- Witness for the amended C8 at a concrete recipient and amount 1. -/
theorem buildTransferCalldata_encoding_witness :
    Transaction.buildTransferCalldata
        "0x1111111111111111111111111111111111111111".data 1 =
      some (Viem.bytesToHex (Transaction.transferSelector ++
        (List.replicate 12 0 ++
          Viem.pairsToBytes "1111111111111111111111111111111111111111".data) ++
        beBytesPad 32 1)) :=
  ((buildTransferCalldata_encoding.1 "1111111111111111111111111111111111111111".data 1
    (by decide) (by decide) (by norm_num)).1)

/-- Counterexample to C8 as stated: the calldata.ts `buildTransferCalldata`
starts with the literal selector `0xb10c99b5`, not `0xa9059cbb`. -/
theorem buildTransferCalldata_selector_counterexample :
    (Calldata.buildTransferCalldata
        "0x1111111111111111111111111111111111111111".data 1).take 10 =
      "0xb10c99b5".data ∧
    "0xb10c99b5".data ≠ "0xa9059cbb".data ∧
    (Calldata.buildTransferCalldata
        "0x1111111111111111111111111111111111111111".data 1).length = 138 := by
  refine ⟨by decide, by decide, by decide⟩

end FbDemo



